import Mathlib

/-!
# Vector Converter & Plotter (`src/Vec.js`)

A shallow embedding of the sketch's coordinate-transform core and of its drawing code: the graph,
the arrows and the dashed lines.

Numbers.  The code computes on IEEE 754 binary64 numbers.  `Binary64.round` is the rounding of
an exact value to the nearest double.  It is applied where rounding decides what the code does: in
the value read by `parseFloat`, in the addition of `normalizeDeg`, and in every operation of
`Binary64.dashLoop` and `Binary64.drawDashedLine`, the dashed line as it runs on doubles.  The
geometric code (`polarToCartesian`, `cartesianToPolar`, `drawArrow`, `drawGraph`, `dashLoop`,
`drawDashedLine`) is written in exact arithmetic, over an ordered field or over `ℝ` with the real
`sqrt`, `atan2`, `cos` and `sin`; what is stated of it are properties that the rounding of the
code changes in the last digits only.  The sign of a zero is kept in the literal read from text
(`Decimal.neg`) and nowhere else; `± 2 ^ 1024` stands for `± Infinity` in the value read from
text; `NaN` occurs only as a result of `parseFloat`.

Effects.  The module-level variables of the sketch are the fields of `Sketch`; a function that
assigns them returns the new `Sketch`.  A function that draws returns the list of its `line`
calls, in the order of emission.
-/

namespace Vectors

/-! ## IEEE 754 binary64 rounding -/

namespace Binary64

section Rounding

variable {K : Type} [LinearOrderedField K] [FloorRing K]

/-- The integer nearest to `t`, the even one of the two when `t` lies half way. -/
def roundEven (t : K) : ℤ :=
  let f := ⌊t⌋
  if t - f < 1 / 2 then f
  else if 1 / 2 < t - f then f + 1
  else if f % 2 = 0 then f else f + 1

/-- Exponent of the spacing of the doubles around `x`: 52 below the binary exponent of `x`, and
`-1074` in the subnormal range. -/
def ulpExp (x : K) : ℤ :=
  max (Int.log 2 |x| - 52) (-1074)

/-- The result of rounding the exact value `x` to binary64, to nearest, ties to even: the value
that an arithmetic operation of the code returns when its exact result is `x`.  Overflow is not
cut off: a result of magnitude `2 ^ 1024` or more is an infinity in the code. -/
def round (x : K) : K :=
  (roundEven (x / (2 : K) ^ ulpExp x) : K) * (2 : K) ^ ulpExp x

end Rounding

end Binary64

/-! ## Number parsing (`parseFloat`, `String.prototype.trim`) -/

/-- White space and line terminators of ECMAScript, the characters removed by `trim`. -/
def isJsSpace (c : Char) : Bool :=
  c.toNat ∈ [0x09, 0x0A, 0x0B, 0x0C, 0x0D, 0x20, 0xA0, 0x1680, 0x2028, 0x2029, 0x202F, 0x205F,
    0x3000, 0xFEFF] || (0x2000 ≤ c.toNat && c.toNat ≤ 0x200A)

/-- The method `String.prototype.trim`, on the characters of the string. -/
def trim (cs : List Char) : List Char :=
  ((cs.dropWhile isJsSpace).reverse.dropWhile isJsSpace).reverse

/-- A decimal literal read from text: the number `± mant * 10 ^ exp`. -/
structure Decimal where
  neg : Bool
  mant : ℕ
  exp : ℤ
deriving DecidableEq, Repr

/-- Value of a decimal literal. -/
def Decimal.toRat (d : Decimal) : ℚ :=
  (if d.neg then -1 else 1) * (d.mant : ℚ) * (10 : ℚ) ^ d.exp

/-- Value of a string of decimal digits. -/
def digitsVal (cs : List Char) : ℕ :=
  cs.foldl (fun n c => 10 * n + (c.toNat - 48)) 0

/-- An optional sign: whether it is a minus, and the text after it. -/
def scanSign : List Char → Bool × List Char
  | '-' :: cs => (true, cs)
  | '+' :: cs => (false, cs)
  | cs => (false, cs)

/-- The exponent part `(e|E) [+-]? digits` at the head of the text, `0` when there is none. -/
def scanExponent : List Char → ℤ
  | c :: cs =>
    if c = 'e' ∨ c = 'E' then
      let (neg, ds) := scanSign cs
      let e := digitsVal (ds.takeWhile Char.isDigit)
      if neg then -(e : ℤ) else e
    else 0
  | [] => 0

/-- The value that `parseFloat` reads: `NaN`, an infinity with its sign, or a decimal literal. -/
inductive Parsed where
  | nan
  | infinity (neg : Bool)
  | decimal (d : Decimal)
deriving DecidableEq, Repr

/-- Whether the text starts with the literal `Infinity`. -/
def startsInfinity : List Char → Bool
  | 'I' :: 'n' :: 'f' :: 'i' :: 'n' :: 'i' :: 't' :: 'y' :: _ => true
  | _ => false

/-- The longest prefix of the text that is a `StrDecimalLiteral`
(`[+-]? (Infinity | digits [. digits?] exponent? | . digits exponent?)`), `nan` when no prefix
is one. -/
def scanDecimal (cs : List Char) : Parsed :=
  let (neg, cs) := scanSign cs
  if startsInfinity cs then .infinity neg
  else
    let ip := cs.takeWhile Char.isDigit
    let rest := cs.dropWhile Char.isDigit
    let (fp, rest) := match rest with
      | '.' :: t => (t.takeWhile Char.isDigit, t.dropWhile Char.isDigit)
      | _ => ([], rest)
    if ip = [] ∧ fp = [] then .nan
    else .decimal ⟨neg, digitsVal (ip ++ fp), scanExponent rest - fp.length⟩

/-- The global function `parseFloat`: leading white space is skipped, the longest numeric prefix is
read. -/
def parseFloat (cs : List Char) : Parsed :=
  scanDecimal (cs.dropWhile isJsSpace)

/-- The Number value of a decimal literal: the double nearest to it, and an infinity, written
`± 2 ^ 1024`, when the literal rounds to `2 ^ 1024` or beyond. -/
def Decimal.toNumber (d : Decimal) : ℚ :=
  let r := Binary64.round d.toRat
  if 2 ^ 1024 ≤ r then 2 ^ 1024 else if r ≤ -2 ^ 1024 then -2 ^ 1024 else r

/-- The function `parseFloatSafe(str, def)` of `Vec.js`, lines 117-120:
`const v = parseFloat((str || '').trim()); return isNaN(v) ? def : v;`.
The values `± 2 ^ 1024`, beyond every finite double, stand for `± Infinity`. -/
def parseFloatSafe (str : String) (dflt : ℝ) : ℝ :=
  match parseFloat (trim str.data) with
  | .nan => dflt
  | .infinity neg => if neg then -2 ^ 1024 else 2 ^ 1024
  | .decimal v => ((v.toNumber : ℚ) : ℝ)

/-! ## Angles -/

section Arithmetic

variable {K : Type} [LinearOrderedField K] [FloorRing K]

/-- Rounding toward zero, the integer quotient used by the `%` operator. -/
def jsTrunc (q : K) : ℤ :=
  if 0 ≤ q then ⌊q⌋ else ⌈q⌉

/-- The operator `a % n` on numbers: the remainder of the division truncated toward zero,
which has the sign of `a`. -/
def jsRem (a n : K) : K :=
  a - n * (jsTrunc (a / n) : K)

/-- The function `normalizeDeg(a)` of `Vec.js`, lines 122-126:
`let x = a % 360; if (x < 0) x += 360; return x;`.  The remainder `a % 360` of a double is a
double, computed exactly; the sum `x + 360` is rounded. -/
def normalizeDeg (a : K) : K :=
  let x := jsRem a 360
  if x < 0 then Binary64.round (x + 360) else x

end Arithmetic

/-- The function `radians` of p5.js: `angle * DEG_TO_RAD`, with `DEG_TO_RAD = PI / 180`. -/
noncomputable def radians (angle : ℝ) : ℝ :=
  angle * (Real.pi / 180)

/-- The function `degrees` of p5.js: `angle * RAD_TO_DEG`, with `RAD_TO_DEG = 180 / PI`. -/
noncomputable def degrees (angle : ℝ) : ℝ :=
  angle * (180 / Real.pi)

/-- The function `Math.atan2(y, x)`: the angle in `(-π, π]` of the point `(x, y)`; at the origin
`0`, the value of the code for the zeros `+0, +0`. -/
noncomputable def atan2 (y x : ℝ) : ℝ :=
  Complex.arg ⟨x, y⟩

/-! ## The vector state -/

/-- Module-level state of the sketch (`Vec.js`, lines 6-13): the text of the four input
fields, the input type, and the vector in both representations. -/
structure Sketch where
  magInput : String
  angInput : String
  xInput : String
  yInput : String
  currentType : String
  vx : ℝ
  vy : ℝ
  r : ℝ
  thetaDeg : ℝ

/-- State built by `setup` (`Vec.js`, lines 11-13, 33-46) before its call of `computeFromPolar`. -/
def Sketch.initial : Sketch :=
  { magInput := "5", angInput := "30", xInput := "4", yInput := "3", currentType := "Polar",
    vx := 0, vy := 0, r := 0, thetaDeg := 0 }

/-- Lines 102-104 of `computeFromPolar`: the Cartesian pair computed from a magnitude and an
angle in degrees (`cos` and `sin` of p5.js, in its default angle mode `RADIANS`). -/
noncomputable def polarToCartesian (mag ang : ℝ) : ℝ × ℝ :=
  let rad := radians ang
  (mag * Real.cos rad, mag * Real.sin rad)

/-- Lines 112-114 of `computeFromCartesian`: the polar pair computed from `(vx, vy)`. -/
noncomputable def cartesianToPolar (vx vy : ℝ) : ℝ × ℝ :=
  let r := Real.sqrt (vx * vx + vy * vy)
  let thetaDeg := degrees (atan2 vy vx)
  (r, normalizeDeg thetaDeg)

/-- The function `computeFromPolar` of `Vec.js`, lines 99-107. -/
noncomputable def computeFromPolar (s : Sketch) : Sketch :=
  let mag := parseFloatSafe s.magInput 0
  let ang := parseFloatSafe s.angInput 0
  { s with
    vx := (polarToCartesian mag ang).1
    vy := (polarToCartesian mag ang).2
    r := mag
    thetaDeg := normalizeDeg ang }

/-- The function `computeFromCartesian` of `Vec.js`, lines 109-115. -/
noncomputable def computeFromCartesian (s : Sketch) : Sketch :=
  let vx := parseFloatSafe s.xInput 0
  let vy := parseFloatSafe s.yInput 0
  { s with
    vx := vx
    vy := vy
    r := (cartesianToPolar vx vy).1
    thetaDeg := (cartesianToPolar vx vy).2 }

/-- The function `computeAndUpdate` of `Vec.js`, lines 94-97. -/
noncomputable def computeAndUpdate (s : Sketch) : Sketch :=
  if s.currentType = "Polar" then computeFromPolar s else computeFromCartesian s

/-! ## Dashed lines -/

/-- One call `line(x1, y1, x2, y2)` of the drawing surface. -/
structure Line (K : Type) where
  x1 : K
  y1 : K
  x2 : K
  y2 : K
deriving DecidableEq, Repr

/-- The `while (pos < d)` loop of `drawDashedLine` (`Vec.js`, lines 221-230), started at the
running distance `pos` with the flag `drawSeg`.  `fuel` bounds the number of iterations: the
result is `none` when the loop has not stopped after `fuel` iterations. -/
def dashLoop {K : Type} [LinearOrderedField K] (x1 y1 ux uy d dash gap : K) :
    ℕ → K → Bool → Option (List (Line K))
  | 0, pos, _ => if pos < d then none else some []
  | fuel + 1, pos, drawSeg =>
    if pos < d then
      let step := if drawSeg then dash else gap
      let nx1 := x1 + ux * pos
      let ny1 := y1 + uy * pos
      let nx2 := x1 + ux * min d (pos + step)
      let ny2 := y1 + uy * min d (pos + step)
      match dashLoop x1 y1 ux uy d dash gap fuel (pos + step) (!drawSeg) with
      | none => none
      | some rest => some (if drawSeg then ⟨nx1, ny1, nx2, ny2⟩ :: rest else rest)
    else some []

/-- The function `Math.hypot(x, y)`. -/
noncomputable def hypot (x y : ℝ) : ℝ :=
  Real.sqrt (x * x + y * y)

/-- The function `drawDashedLine(x1, y1, x2, y2, dash, gap)` of `Vec.js`, lines 210-231: the
lines it draws, or `none` when its loop has not stopped after `fuel` iterations. -/
noncomputable def drawDashedLine (fuel : ℕ) (x1 y1 x2 y2 dash gap : ℝ) :
    Option (List (Line ℝ)) :=
  let dx := x2 - x1
  let dy := y2 - y1
  let d := hypot dx dy
  if d = 0 then some []
  else
    let ux := dx / d
    let uy := dy / d
    dashLoop x1 y1 ux uy d dash gap fuel 0 true

/-! ## Dashed lines on doubles -/

/-- The `while (pos < d)` loop of `drawDashedLine` (`Vec.js`, lines 221-230) on doubles: the
arguments are doubles and each sum and product is rounded.  `fuel` bounds the number of
iterations: the result is `none` when the loop has not stopped after `fuel` iterations. -/
def Binary64.dashLoop {K : Type} [LinearOrderedField K] [FloorRing K]
    (x1 y1 ux uy d dash gap : K) : ℕ → K → Bool → Option (List (Line K))
  | 0, pos, _ => if pos < d then none else some []
  | fuel + 1, pos, drawSeg =>
    if pos < d then
      let step := if drawSeg then dash else gap
      let nx1 := Binary64.round (x1 + Binary64.round (ux * pos))
      let ny1 := Binary64.round (y1 + Binary64.round (uy * pos))
      let nx2 := Binary64.round (x1 + Binary64.round (ux * min d (Binary64.round (pos + step))))
      let ny2 := Binary64.round (y1 + Binary64.round (uy * min d (Binary64.round (pos + step))))
      match Binary64.dashLoop x1 y1 ux uy d dash gap fuel (Binary64.round (pos + step))
        (!drawSeg) with
      | none => none
      | some rest => some (if drawSeg then ⟨nx1, ny1, nx2, ny2⟩ :: rest else rest)
    else some []

/-- The function `drawDashedLine(x1, y1, x2, y2, dash, gap)` of `Vec.js`, lines 210-231, on
doubles: the arguments are doubles, each operation is rounded, and `Math.hypot` returns the
double nearest to the exact root.  The result is `none` when the loop has not stopped after
`fuel` iterations. -/
noncomputable def Binary64.drawDashedLine (fuel : ℕ) (x1 y1 x2 y2 dash gap : ℝ) :
    Option (List (Line ℝ)) :=
  let dx := Binary64.round (x2 - x1)
  let dy := Binary64.round (y2 - y1)
  let d := Binary64.round (hypot dx dy)
  if d = 0 then some []
  else
    let ux := Binary64.round (dx / d)
    let uy := Binary64.round (dy / d)
    Binary64.dashLoop x1 y1 ux uy d dash gap fuel 0 true

/-! ## Arrows -/

/-- The function `drawArrow(x1, y1, x2, y2)` of `Vec.js`, lines 200-207: its three `line`
calls, the shaft and the two edges of the arrowhead. -/
noncomputable def drawArrow (x1 y1 x2 y2 : ℝ) : List (Line ℝ) :=
  let a := atan2 (y1 - y2) (x1 - x2)
  let len : ℝ := 12
  let ang := radians 25
  [⟨x1, y1, x2, y2⟩,
    ⟨x2, y2, x2 + len * Real.cos (a + ang), y2 + len * Real.sin (a + ang)⟩,
    ⟨x2, y2, x2 + len * Real.cos (a - ang), y2 + len * Real.sin (a - ang)⟩]

/-! ## The graph -/

/-- The loop `for (let x = x0; x <= limit; x += S) body(x)` (`Vec.js`, lines 154 and 156),
started at `x`: the values of the loop variable at which the body runs, in order, or `none` when
the loop has not stopped after `fuel` iterations. -/
def forUp {K : Type} [LinearOrderedField K] (limit S : K) : ℕ → K → Option (List K)
  | 0, x => if x ≤ limit then none else some []
  | fuel + 1, x =>
    if x ≤ limit then
      match forUp limit S fuel (x + S) with
      | none => none
      | some rest => some (x :: rest)
    else some []

/-- The loop `for (let x = x0; x >= limit; x -= S) body(x)` (`Vec.js`, lines 155 and 157),
started at `x`: the values of the loop variable at which the body runs, in order, or `none` when
the loop has not stopped after `fuel` iterations. -/
def forDown {K : Type} [LinearOrderedField K] (limit S : K) : ℕ → K → Option (List K)
  | 0, x => if limit ≤ x then none else some []
  | fuel + 1, x =>
    if limit ≤ x then
      match forDown limit S fuel (x - S) with
      | none => none
      | some rest => some (x :: rest)
    else some []

/-- The constants of `drawGraph` (`Vec.js`, lines 143-146), computed from the canvas size. -/
structure Bounds where
  left : ℝ
  top : ℝ
  right : ℝ
  bottom : ℝ
  w : ℝ
  h : ℝ
  ox : ℝ
  oy : ℝ

/-- Lines 143-146 of `drawGraph`: `left = 20, top = 190, right = width - 20,
bottom = height - 20`, `w = right - left, h = bottom - top`, `ox = left + w/2`,
`oy = top + h/2`. -/
noncomputable def bounds (width height : ℝ) : Bounds :=
  let left : ℝ := 20
  let top : ℝ := 190
  let right := width - 20
  let bottom := height - 20
  let w := right - left
  let h := bottom - top
  { left := left, top := top, right := right, bottom := bottom, w := w, h := h,
    ox := left + w / 2, oy := top + h / 2 }

/-- Line 154 of `drawGraph`: `for (let x = ox; x <= right; x += S) line(x, top, x, bottom)`. -/
noncomputable def gridRight (fuel : ℕ) (b : Bounds) (S : ℝ) : Option (List (Line ℝ)) :=
  (forUp b.right S fuel b.ox).map (List.map fun x => ⟨x, b.top, x, b.bottom⟩)

/-- Line 155 of `drawGraph`: `for (let x = ox; x >= left; x -= S) line(x, top, x, bottom)`. -/
noncomputable def gridLeft (fuel : ℕ) (b : Bounds) (S : ℝ) : Option (List (Line ℝ)) :=
  (forDown b.left S fuel b.ox).map (List.map fun x => ⟨x, b.top, x, b.bottom⟩)

/-- Line 156 of `drawGraph`: `for (let y = oy; y <= bottom; y += S) line(left, y, right, y)`. -/
noncomputable def gridDown (fuel : ℕ) (b : Bounds) (S : ℝ) : Option (List (Line ℝ)) :=
  (forUp b.bottom S fuel b.oy).map (List.map fun y => ⟨b.left, y, b.right, y⟩)

/-- Line 157 of `drawGraph`: `for (let y = oy; y >= top; y -= S) line(left, y, right, y)`. -/
noncomputable def gridUp (fuel : ℕ) (b : Bounds) (S : ℝ) : Option (List (Line ℝ)) :=
  (forDown b.top S fuel b.oy).map (List.map fun y => ⟨b.left, y, b.right, y⟩)

/-- Lines 167-168 of `drawGraph`: the pixel `(px, py)` of the tip of the vector,
`px = ox + vx * S`, `py = oy - vy * S`. -/
noncomputable def tip (b : Bounds) (S : ℝ) (s : Sketch) : ℝ × ℝ :=
  (b.ox + s.vx * S, b.oy - s.vy * S)

/-- The function `drawGraph` of `Vec.js`, lines 141-187, on a canvas of size `width × height`
with the slider at `S`: its `line` calls, those of `drawArrow` and `drawDashedLine` included, in
order (the frame `rect`, the two `text` labels and the styles are not recorded), or `none` when
one of its loops has not stopped after `fuel` iterations. -/
noncomputable def drawGraph (fuel : ℕ) (width height S : ℝ) (s : Sketch) :
    Option (List (Line ℝ)) :=
  let b := bounds width height
  let px := (tip b S s).1
  let py := (tip b S s).2
  match gridRight fuel b S, gridLeft fuel b S, gridDown fuel b S, gridUp fuel b S,
    drawDashedLine fuel px b.oy px py 8 6, drawDashedLine fuel b.ox py px py 8 6 with
  | some g1, some g2, some g3, some g4, some d1, some d2 =>
    some (g1 ++ g2 ++ g3 ++ g4
      ++ [⟨b.left, b.oy, b.right, b.oy⟩, ⟨b.ox, b.top, b.ox, b.bottom⟩]
      ++ drawArrow (b.right - 10) b.oy b.right b.oy
      ++ drawArrow b.ox (b.top + 10) b.ox b.top
      ++ [⟨b.ox, b.oy, px, py⟩]
      ++ drawArrow b.ox b.oy px py
      ++ d1 ++ d2)
  | _, _, _, _, _, _ => none

/-! ## Rounding: lemmas -/

namespace Binary64

section Rounding

variable {K : Type} [LinearOrderedField K] [FloorRing K]

theorem roundEven_eq {t : K} {n : ℤ} (h : |t - n| < 1 / 2) : roundEven t = n := by
  obtain ⟨h1, h2⟩ := abs_lt.1 h
  unfold roundEven
  by_cases hle : (n : K) ≤ t
  · have hf : ⌊t⌋ = n := by
      rw [Int.floor_eq_iff]
      constructor <;> linarith
    simp only [hf]
    rw [if_pos (by linarith)]
  · have hlt : t < n := lt_of_not_le hle
    have hf : ⌊t⌋ = n - 1 := by
      rw [Int.floor_eq_iff]
      push_cast
      constructor <;> linarith
    simp only [hf]
    push_cast
    rw [if_neg (by linarith), if_pos (by linarith)]
    ring

theorem roundEven_tie {t : K} {m : ℤ} (h : t = m + 1 / 2) :
    roundEven t = if m % 2 = 0 then m else m + 1 := by
  have hf : ⌊t⌋ = m := by
    rw [Int.floor_eq_iff]
    constructor <;> linarith
  unfold roundEven
  simp only [hf]
  rw [if_neg (by linarith), if_neg (by linarith)]

theorem ulpExp_eq {x : K} {e : ℤ} (hlo : (2 : K) ^ e ≤ |x|) (hhi : |x| < (2 : K) ^ (e + 1))
    (he : -1022 ≤ e) : ulpExp x = e - 52 := by
  have hpos : 0 < |x| := lt_of_lt_of_le (zpow_pos (by norm_num) e) hlo
  have h2 : ((2 : ℕ) : K) = 2 := by norm_num
  have hlog : Int.log 2 |x| = e := by
    apply le_antisymm
    · have := (Int.lt_zpow_iff_log_lt (b := 2) (by norm_num) hpos (x := e + 1)).1
        (by rw [h2]; exact hhi)
      omega
    · exact (Int.zpow_le_iff_le_log (b := 2) (by norm_num) hpos).1 (by rw [h2]; exact hlo)
  unfold ulpExp
  rw [hlog]
  exact max_eq_left (by omega)

theorem round_eq {x : K} (e n : ℤ) (hlo : (2 : K) ^ e ≤ |x|) (hhi : |x| < (2 : K) ^ (e + 1))
    (he : -1022 ≤ e) (hn : roundEven (x / (2 : K) ^ (e - 52)) = n) :
    round x = (n : K) * (2 : K) ^ (e - 52) := by
  unfold round
  rw [ulpExp_eq hlo hhi he, hn]

theorem round_zero : round (0 : K) = 0 := by
  simp [round, roundEven]
theorem roundEven_intCast (m : ℤ) : roundEven ((m : ℤ) : K) = m :=
  roundEven_eq (by simp)

theorem roundEven_nonneg {t : K} (h : 0 ≤ t) : 0 ≤ roundEven t := by
  have hf : 0 ≤ ⌊t⌋ := Int.floor_nonneg.2 h
  unfold roundEven
  simp only
  split_ifs <;> omega

theorem roundEven_le {t : K} {N : ℤ} (h : t ≤ N) : roundEven t ≤ N := by
  rcases eq_or_lt_of_le h with heq | hlt
  · rw [heq, roundEven_intCast]
  · have hf : ⌊t⌋ < N := Int.floor_lt.2 hlt
    unfold roundEven
    simp only
    split_ifs <;> omega

theorem two_zpow_pos {F : Type} [LinearOrderedField F] (k : ℤ) : (0 : F) < (2 : F) ^ k :=
  zpow_pos (by norm_num) k

theorem round_nonneg {x : K} (h : 0 ≤ x) : 0 ≤ round x := by
  unfold round
  have h1 : 0 ≤ roundEven (x / (2 : K) ^ ulpExp x) :=
    roundEven_nonneg (div_nonneg h (two_zpow_pos _).le)
  have h2 : (0 : K) ≤ (roundEven (x / (2 : K) ^ ulpExp x) : K) := by exact_mod_cast h1
  exact mul_nonneg h2 (two_zpow_pos _).le

/-- A natural number below `2 ^ 53` is a double. -/
theorem round_natCast {n : ℕ} (hn : n < 2 ^ 53) : round (n : K) = n := by
  rcases Nat.eq_zero_or_pos n with h0 | hpos
  · subst h0; simpa using (round_zero : round (0 : K) = 0)
  have hne : n ≠ 0 := hpos.ne'
  have hL : Nat.log 2 n < 53 := Nat.log_lt_of_lt_pow hne hn
  have hlo : 2 ^ Nat.log 2 n ≤ n := Nat.pow_log_le_self 2 hne
  have hhi : n < 2 ^ (Nat.log 2 n + 1) := Nat.lt_pow_succ_log_self (by norm_num) n
  obtain ⟨m, hm⟩ : ∃ m : ℕ, Nat.log 2 n + m = 52 := ⟨52 - Nat.log 2 n, by omega⟩
  have hexp : ((Nat.log 2 n : ℕ) : ℤ) - 52 = -(m : ℤ) := by omega
  have habs : |(n : K)| = n := abs_of_nonneg (Nat.cast_nonneg n)
  have hpow : (2 : K) ^ (((Nat.log 2 n : ℕ) : ℤ) - 52) = ((2 : K) ^ m)⁻¹ := by
    rw [hexp, zpow_neg, zpow_natCast]
  rw [round_eq (Nat.log 2 n : ℤ) ((n * 2 ^ m : ℕ) : ℤ)]
  · rw [hpow]
    push_cast
    field_simp
  · rw [habs, zpow_natCast]
    exact_mod_cast hlo
  · rw [habs]
    have : ((Nat.log 2 n : ℕ) : ℤ) + 1 = ((Nat.log 2 n + 1 : ℕ) : ℤ) := by push_cast; ring
    rw [this, zpow_natCast]
    exact_mod_cast hhi
  · omega
  · rw [hpow]
    have : (n : K) / ((2 : K) ^ m)⁻¹ = (((n * 2 ^ m : ℕ) : ℤ) : K) := by
      push_cast
      field_simp
    rw [this, roundEven_intCast]

/-- A sum that does not exceed `2 ^ 57 + 8` is rounded to a double that does not exceed
`2 ^ 57`: above `2 ^ 57` the doubles are 32 apart. -/
theorem round_le_two_pow_57 {x : K} (h0 : 0 ≤ x) (h1 : x ≤ 2 ^ 57 + 8) : round x ≤ 2 ^ 57 := by
  rcases eq_or_lt_of_le h0 with hz | hpos
  · rw [← hz, round_zero]; positivity
  by_cases hle : x ≤ 2 ^ 57
  · have habs : |x| = x := abs_of_pos hpos
    have h2 : ((2 : ℕ) : K) = 2 := by norm_num
    have hlog : Int.log 2 |x| < 58 := by
      apply (Int.lt_zpow_iff_log_lt (b := 2) (by norm_num) (by rw [habs]; exact hpos)).1
      rw [h2, habs]
      calc x ≤ 2 ^ 57 := hle
        _ < (2 : K) ^ (58 : ℤ) := by norm_num
    have hk : ulpExp x ≤ 5 := by
      unfold ulpExp
      exact max_le (by omega) (by norm_num)
    obtain ⟨j, hj⟩ : ∃ j : ℕ, ulpExp x + j = 57 := ⟨(57 - ulpExp x).toNat, by omega⟩
    have hsplit : (2 : K) ^ (57 : ℕ) = (2 : K) ^ j * (2 : K) ^ ulpExp x := by
      rw [← zpow_natCast (2 : K) j, ← zpow_add₀ (by norm_num : (2 : K) ≠ 0),
        ← zpow_natCast (2 : K) 57]
      congr 1
      omega
    have ht : x / (2 : K) ^ ulpExp x ≤ (((2 ^ j : ℕ) : ℤ) : K) := by
      rw [div_le_iff₀ (two_zpow_pos _)]
      push_cast
      rw [← hsplit]
      exact hle
    have hr := roundEven_le ht
    unfold round
    calc (roundEven (x / (2 : K) ^ ulpExp x) : K) * (2 : K) ^ ulpExp x
        ≤ (((2 ^ j : ℕ) : ℤ) : K) * (2 : K) ^ ulpExp x := by
          apply mul_le_mul_of_nonneg_right _ (two_zpow_pos _).le
          exact_mod_cast hr
      _ = 2 ^ 57 := by push_cast; rw [← hsplit]
  · have hgt : 2 ^ 57 < x := lt_of_not_le hle
    have habs : |x| = x := abs_of_pos hpos
    rw [round_eq 57 (2 ^ 52)]
    · norm_num
    · rw [habs]; norm_num; linarith
    · rw [habs]; norm_num; linarith
    · norm_num
    · apply roundEven_eq
      rw [abs_lt]
      norm_num
      constructor <;> linarith

end Rounding

end Binary64

/-! ## Angle normalisation: lemmas -/

section Arithmetic

variable {K : Type} [LinearOrderedField K] [FloorRing K]

theorem jsTrunc_intCast (k : ℤ) : jsTrunc ((k : ℤ) : K) = k := by
  unfold jsTrunc
  split_ifs <;> simp

theorem jsRem_of_nonneg {a : K} (h : 0 ≤ a) : jsRem a 360 = a - 360 * (⌊a / 360⌋ : K) := by
  unfold jsRem jsTrunc
  rw [if_pos (div_nonneg h (by norm_num))]

/-- On a number `a ≥ 0` no addition is made: `normalizeDeg a` is the exact floor-modulo, in
`[0, 360)`. -/
theorem normalizeDeg_of_nonneg {a : K} (h : 0 ≤ a) :
    normalizeDeg a = a - 360 * (⌊a / 360⌋ : K) ∧ 0 ≤ normalizeDeg a ∧ normalizeDeg a < 360 := by
  have h360 : (0 : K) < 360 := by norm_num
  have hfl : (⌊a / 360⌋ : K) ≤ a / 360 := Int.floor_le _
  have hfl2 : a / 360 < (⌊a / 360⌋ : K) + 1 := Int.lt_floor_add_one _
  rw [le_div_iff₀ h360] at hfl
  rw [div_lt_iff₀ h360] at hfl2
  have hx : ¬ jsRem a 360 < 0 := by
    rw [jsRem_of_nonneg h]; intro hneg; linarith
  have hn : normalizeDeg a = a - 360 * (⌊a / 360⌋ : K) := by
    unfold normalizeDeg
    simp only [hx, if_false]
    exact jsRem_of_nonneg h
  rw [hn]
  exact ⟨rfl, by linarith, by linarith⟩

theorem normalizeDeg_of_mem {a : K} (h0 : 0 ≤ a) (h1 : a < 360) : normalizeDeg a = a := by
  rw [(normalizeDeg_of_nonneg h0).1]
  have h360 : (0 : K) < 360 := by norm_num
  have hfl : ⌊a / 360⌋ = 0 := by
    rw [Int.floor_eq_iff]
    constructor
    · simpa using div_nonneg h0 h360.le
    · rw [div_lt_iff₀ h360]; simpa using h1
  rw [hfl]; simp

theorem normalizeDeg_mul_int (k : ℤ) : normalizeDeg (360 * (k : K)) = 0 := by
  have hdiv : (360 * (k : K)) / 360 = (k : K) := by field_simp
  have hx : jsRem (360 * (k : K)) 360 = 0 := by
    unfold jsRem
    rw [hdiv, jsTrunc_intCast]
    ring
  unfold normalizeDeg
  simp [hx]

end Arithmetic

/-! ## Trigonometry: lemmas -/

theorem atan2_zero_zero : atan2 0 0 = 0 := by
  unfold atan2
  have h : (⟨0, 0⟩ : ℂ) = 0 := rfl
  rw [h, Complex.arg_zero]

theorem sqrt_mul_cos_atan2 (x y : ℝ) :
    Real.sqrt (x * x + y * y) * Real.cos (atan2 y x) = x := by
  unfold atan2
  by_cases hz : (⟨x, y⟩ : ℂ) = 0
  · have hx : x = 0 := by simpa using congrArg Complex.re hz
    have hy : y = 0 := by simpa using congrArg Complex.im hz
    subst hx; subst hy; simp
  · have habs : Complex.abs ⟨x, y⟩ = Real.sqrt (x * x + y * y) := by
      rw [Complex.abs_apply, Complex.normSq_mk]
    rw [Complex.cos_arg hz, habs]
    have hpos : Real.sqrt (x * x + y * y) ≠ 0 := by
      rw [← habs]; exact (map_ne_zero Complex.abs).2 hz
    field_simp

theorem sqrt_mul_sin_atan2 (x y : ℝ) :
    Real.sqrt (x * x + y * y) * Real.sin (atan2 y x) = y := by
  unfold atan2
  by_cases hz : (⟨x, y⟩ : ℂ) = 0
  · have hx : x = 0 := by simpa using congrArg Complex.re hz
    have hy : y = 0 := by simpa using congrArg Complex.im hz
    subst hx; subst hy; simp
  · have habs : Complex.abs ⟨x, y⟩ = Real.sqrt (x * x + y * y) := by
      rw [Complex.abs_apply, Complex.normSq_mk]
    rw [Complex.sin_arg, habs]
    have hpos : Real.sqrt (x * x + y * y) ≠ 0 := by
      rw [← habs]; exact (map_ne_zero Complex.abs).2 hz
    field_simp

/-! ## The dash loop: lemmas -/

section DashLoop

variable {K : Type} [LinearOrderedField K]

theorem dashLoop_of_le (x1 y1 ux uy d dash gap : K) (fuel : ℕ) (pos : K) (b : Bool)
    (h : d ≤ pos) : dashLoop x1 y1 ux uy d dash gap fuel pos b = some [] := by
  cases fuel <;> simp [dashLoop, not_lt.2 h]

/-- Started on a dash at `pos`, with `n` the number of periods `dash + gap` that start before `d`,
the loop stops within `2 * n` iterations and draws the `n` dashes, each clipped at `d`. -/
theorem dashLoop_eq (x1 y1 ux uy d dash gap : K) (hgap : 0 ≤ gap) :
    ∀ (n fuel : ℕ) (pos : K), (∀ k : ℕ, k < n → pos + k * (dash + gap) < d) →
      d ≤ pos + n * (dash + gap) → 2 * n ≤ fuel →
      dashLoop x1 y1 ux uy d dash gap fuel pos true
        = some ((List.range n).map fun k : ℕ =>
            (⟨x1 + ux * (pos + k * (dash + gap)), y1 + uy * (pos + k * (dash + gap)),
              x1 + ux * min d (pos + k * (dash + gap) + dash),
              y1 + uy * min d (pos + k * (dash + gap) + dash)⟩ : Line K)) := by
  intro n
  induction n with
  | zero =>
    intro fuel pos _ hge _
    have hle : d ≤ pos := by simpa using hge
    simpa using dashLoop_of_le x1 y1 ux uy d dash gap fuel pos true hle
  | succ n ih =>
    intro fuel pos hlt hge hfuel
    obtain ⟨f, rfl⟩ : ∃ f, fuel = f + 2 := ⟨fuel - 2, by omega⟩
    have hpos : pos < d := by simpa using hlt 0 (Nat.succ_pos n)
    rw [List.range_succ_eq_map, List.map_cons, List.map_map]
    by_cases hmid : pos + dash < d
    · have hrec := ih f (pos + dash + gap)
        (fun k hk => by
          have := hlt (k + 1) (Nat.succ_lt_succ hk)
          push_cast at this
          linarith)
        (by push_cast at hge; linarith) (by omega)
      simp only [dashLoop, hpos, hmid, if_true, Bool.not_true, Bool.not_false,
        Bool.false_eq_true, if_false]
      rw [hrec]
      simp only [Option.some.injEq, List.cons.injEq]
      refine ⟨by simp, ?_⟩
      apply List.map_congr_left
      intro k _
      simp only [Function.comp, Nat.succ_eq_add_one]
      push_cast
      congr 1 <;> ring_nf
    · have hn : n = 0 := by
        by_contra hne
        have := hlt 1 (by omega)
        push_cast at this
        linarith
      subst hn
      simp [dashLoop, hpos, hmid]

end DashLoop

/-! ## The dashed line: lemmas -/

theorem hypot_nonneg (x y : ℝ) : 0 ≤ hypot x y :=
  Real.sqrt_nonneg _

theorem hypot_mul_self (x y : ℝ) : hypot x y * hypot x y = x * x + y * y :=
  Real.mul_self_sqrt (by nlinarith [mul_self_nonneg x, mul_self_nonneg y])

theorem hypot_pos_of_ne {x1 y1 x2 y2 : ℝ} (h : x1 ≠ x2 ∨ y1 ≠ y2) :
    0 < hypot (x2 - x1) (y2 - y1) := by
  unfold hypot
  apply Real.sqrt_pos.2
  rcases h with h | h
  · have : 0 < (x2 - x1) * (x2 - x1) := mul_self_pos.2 (sub_ne_zero.2 (Ne.symm h))
    nlinarith [mul_self_nonneg (y2 - y1)]
  · have : 0 < (y2 - y1) * (y2 - y1) := mul_self_pos.2 (sub_ne_zero.2 (Ne.symm h))
    nlinarith [mul_self_nonneg (x2 - x1)]

theorem hypot_self_zero {d : ℝ} (hd : 0 ≤ d) : hypot (d - 0) (0 - 0) = d := by
  unfold hypot
  simp [Real.sqrt_mul_self hd]

/-- Distance covered along the unit direction: the point at parameter `t` lies `|t|` away. -/
theorem hypot_direction {dx dy : ℝ} (hd : 0 < hypot dx dy) (t : ℝ) :
    hypot (dx / hypot dx dy * t) (dy / hypot dx dy * t) = |t| := by
  have hsq := hypot_mul_self dx dy
  have hne : hypot dx dy ≠ 0 := hd.ne'
  have h : dx / hypot dx dy * t * (dx / hypot dx dy * t)
      + dy / hypot dx dy * t * (dy / hypot dx dy * t) = t * t := by
    field_simp
    rw [hsq]; ring
  rw [show hypot (dx / hypot dx dy * t) (dy / hypot dx dy * t)
      = Real.sqrt (dx / hypot dx dy * t * (dx / hypot dx dy * t)
        + dy / hypot dx dy * t * (dy / hypot dx dy * t)) from rfl, h]
  exact Real.sqrt_mul_self_eq_abs t

/-- With a positive distance `d` and a positive period `dash + gap`, the loop of
`drawDashedLine` stops within `2 * ⌈d / (dash + gap)⌉` iterations and draws one dash for each
period that starts before `d`, clipped at `d`. -/
theorem drawDashedLine_eq (x1 y1 x2 y2 dash gap : ℝ) (hd : 0 < hypot (x2 - x1) (y2 - y1))
    (hgap : 0 ≤ gap) (hper : 0 < dash + gap) (fuel : ℕ)
    (hfuel : 2 * ⌈hypot (x2 - x1) (y2 - y1) / (dash + gap)⌉₊ ≤ fuel) :
    drawDashedLine fuel x1 y1 x2 y2 dash gap
      = some ((List.range ⌈hypot (x2 - x1) (y2 - y1) / (dash + gap)⌉₊).map fun k : ℕ =>
          (⟨x1 + (x2 - x1) / hypot (x2 - x1) (y2 - y1) * (k * (dash + gap)),
            y1 + (y2 - y1) / hypot (x2 - x1) (y2 - y1) * (k * (dash + gap)),
            x1 + (x2 - x1) / hypot (x2 - x1) (y2 - y1)
              * min (hypot (x2 - x1) (y2 - y1)) (k * (dash + gap) + dash),
            y1 + (y2 - y1) / hypot (x2 - x1) (y2 - y1)
              * min (hypot (x2 - x1) (y2 - y1)) (k * (dash + gap) + dash)⟩ : Line ℝ)) := by
  have hloop := dashLoop_eq x1 y1 ((x2 - x1) / hypot (x2 - x1) (y2 - y1))
    ((y2 - y1) / hypot (x2 - x1) (y2 - y1)) (hypot (x2 - x1) (y2 - y1)) dash gap hgap
    ⌈hypot (x2 - x1) (y2 - y1) / (dash + gap)⌉₊ fuel 0
    (fun k hk => by
      have hk2 := Nat.lt_ceil.1 hk
      rw [lt_div_iff₀ hper] at hk2
      linarith)
    (by
      have hc := Nat.le_ceil (hypot (x2 - x1) (y2 - y1) / (dash + gap))
      rw [div_le_iff₀ hper] at hc
      linarith)
    hfuel
  simp only [zero_add] at hloop
  simp only [drawDashedLine, hd.ne', if_false]
  exact hloop

/-! ## The grid loops: lemmas -/

section GridLoops

variable {K : Type} [LinearOrderedField K]

/-- With `n` the number of steps `x + k * S` that stay `≤ limit`, the upward loop stops within
`n` iterations and runs its body at these `n` values. -/
theorem forUp_eq (limit S : K) :
    ∀ (n fuel : ℕ) (x : K), (∀ k : ℕ, k < n → x + k * S ≤ limit) → limit < x + n * S →
      n ≤ fuel → forUp limit S fuel x = some ((List.range n).map fun k : ℕ => x + k * S) := by
  intro n
  induction n with
  | zero =>
    intro fuel x _ hgt _
    have hx : ¬ x ≤ limit := by simpa using hgt
    cases fuel <;> simp [forUp, hx]
  | succ n ih =>
    intro fuel x hle hgt hfuel
    obtain ⟨f, rfl⟩ : ∃ f, fuel = f + 1 := ⟨fuel - 1, by omega⟩
    have hx : x ≤ limit := by simpa using hle 0 (Nat.succ_pos n)
    have hrec := ih f (x + S)
      (fun k hk => by
        have := hle (k + 1) (Nat.succ_lt_succ hk)
        push_cast at this
        linarith)
      (by push_cast at hgt; linarith) (by omega)
    rw [List.range_succ_eq_map, List.map_cons, List.map_map]
    simp only [forUp, hx, if_true]
    rw [hrec]
    simp only [Option.some.injEq, List.cons.injEq]
    refine ⟨by simp, ?_⟩
    apply List.map_congr_left
    intro k _
    simp only [Function.comp, Nat.succ_eq_add_one]
    push_cast
    ring

/-- With `n` the number of steps `x - k * S` that stay `≥ limit`, the downward loop stops within
`n` iterations and runs its body at these `n` values. -/
theorem forDown_eq (limit S : K) :
    ∀ (n fuel : ℕ) (x : K), (∀ k : ℕ, k < n → limit ≤ x - k * S) → x - n * S < limit →
      n ≤ fuel → forDown limit S fuel x = some ((List.range n).map fun k : ℕ => x - k * S) := by
  intro n
  induction n with
  | zero =>
    intro fuel x _ hgt _
    have hx : ¬ limit ≤ x := by simpa using hgt
    cases fuel <;> simp [forDown, hx]
  | succ n ih =>
    intro fuel x hle hgt hfuel
    obtain ⟨f, rfl⟩ : ∃ f, fuel = f + 1 := ⟨fuel - 1, by omega⟩
    have hx : limit ≤ x := by simpa using hle 0 (Nat.succ_pos n)
    have hrec := ih f (x - S)
      (fun k hk => by
        have := hle (k + 1) (Nat.succ_lt_succ hk)
        push_cast at this
        linarith)
      (by push_cast at hgt; linarith) (by omega)
    rw [List.range_succ_eq_map, List.map_cons, List.map_map]
    simp only [forDown, hx, if_true]
    rw [hrec]
    simp only [Option.some.injEq, List.cons.injEq]
    refine ⟨by simp, ?_⟩
    apply List.map_congr_left
    intro k _
    simp only [Function.comp, Nat.succ_eq_add_one]
    push_cast
    ring

end GridLoops

/-- The number of `k = 0, 1, 2, ...` with `k * S ≤ len`, for a step `S > 0`. -/
theorem lt_floor_steps {len S : ℝ} (hS : 0 < S) (k : ℕ) :
    k < ⌊len / S + 1⌋₊ ↔ (k : ℝ) * S ≤ len := by
  rw [← Nat.succ_le_iff, Nat.le_floor_iff' (Nat.succ_ne_zero k), Nat.succ_eq_add_one]
  push_cast
  rw [add_le_add_iff_right, le_div_iff₀ hS]

theorem forUp_steps (limit S x : ℝ) (hS : 0 < S) (fuel : ℕ)
    (hfuel : ⌊(limit - x) / S + 1⌋₊ ≤ fuel) :
    forUp limit S fuel x
      = some ((List.range ⌊(limit - x) / S + 1⌋₊).map fun k : ℕ => x + k * S) := by
  apply forUp_eq limit S _ fuel x _ _ hfuel
  · intro k hk
    have := (lt_floor_steps hS k).1 hk
    linarith
  · have h : ¬ ((⌊(limit - x) / S + 1⌋₊ : ℕ) : ℝ) * S ≤ limit - x := fun hle =>
      lt_irrefl _ ((lt_floor_steps hS _).2 hle)
    linarith [not_le.1 h]

theorem forDown_steps (limit S x : ℝ) (hS : 0 < S) (fuel : ℕ)
    (hfuel : ⌊(x - limit) / S + 1⌋₊ ≤ fuel) :
    forDown limit S fuel x
      = some ((List.range ⌊(x - limit) / S + 1⌋₊).map fun k : ℕ => x - k * S) := by
  apply forDown_eq limit S _ fuel x _ _ hfuel
  · intro k hk
    have := (lt_floor_steps hS k).1 hk
    linarith
  · have h : ¬ ((⌊(x - limit) / S + 1⌋₊ : ℕ) : ℝ) * S ≤ x - limit := fun hle =>
      lt_irrefl _ ((lt_floor_steps hS _).2 hle)
    linarith [not_le.1 h]

/-! ## The graph: lemmas -/

theorem gridRight_eq (b : Bounds) (S : ℝ) (hS : 0 < S) (fuel : ℕ)
    (hfuel : ⌊(b.right - b.ox) / S + 1⌋₊ ≤ fuel) :
    gridRight fuel b S
      = some ((List.range ⌊(b.right - b.ox) / S + 1⌋₊).map fun k : ℕ =>
          (⟨b.ox + k * S, b.top, b.ox + k * S, b.bottom⟩ : Line ℝ)) := by
  simp [gridRight, forUp_steps b.right S b.ox hS fuel hfuel, Function.comp_def]

theorem gridLeft_eq (b : Bounds) (S : ℝ) (hS : 0 < S) (fuel : ℕ)
    (hfuel : ⌊(b.ox - b.left) / S + 1⌋₊ ≤ fuel) :
    gridLeft fuel b S
      = some ((List.range ⌊(b.ox - b.left) / S + 1⌋₊).map fun k : ℕ =>
          (⟨b.ox - k * S, b.top, b.ox - k * S, b.bottom⟩ : Line ℝ)) := by
  simp [gridLeft, forDown_steps b.left S b.ox hS fuel hfuel, Function.comp_def]

theorem gridDown_eq (b : Bounds) (S : ℝ) (hS : 0 < S) (fuel : ℕ)
    (hfuel : ⌊(b.bottom - b.oy) / S + 1⌋₊ ≤ fuel) :
    gridDown fuel b S
      = some ((List.range ⌊(b.bottom - b.oy) / S + 1⌋₊).map fun k : ℕ =>
          (⟨b.left, b.oy + k * S, b.right, b.oy + k * S⟩ : Line ℝ)) := by
  simp [gridDown, forUp_steps b.bottom S b.oy hS fuel hfuel, Function.comp_def]

theorem gridUp_eq (b : Bounds) (S : ℝ) (hS : 0 < S) (fuel : ℕ)
    (hfuel : ⌊(b.oy - b.top) / S + 1⌋₊ ≤ fuel) :
    gridUp fuel b S
      = some ((List.range ⌊(b.oy - b.top) / S + 1⌋₊).map fun k : ℕ =>
          (⟨b.left, b.oy - k * S, b.right, b.oy - k * S⟩ : Line ℝ)) := by
  simp [gridUp, forDown_steps b.top S b.oy hS fuel hfuel, Function.comp_def]

theorem hypot_zero_zero : hypot 0 0 = 0 := by
  simp [hypot]

/-- With a period `dash + gap > 0` the call of `drawDashedLine` stops within
`2 * ⌈d / (dash + gap)⌉` iterations of its loop, and draws at most `⌈d / (dash + gap)⌉` lines. -/
theorem drawDashedLine_stops (x1 y1 x2 y2 dash gap : ℝ) (hgap : 0 ≤ gap) (hper : 0 < dash + gap)
    (fuel : ℕ) (hfuel : 2 * ⌈hypot (x2 - x1) (y2 - y1) / (dash + gap)⌉₊ ≤ fuel) :
    ∃ segs : List (Line ℝ), drawDashedLine fuel x1 y1 x2 y2 dash gap = some segs ∧
      segs.length ≤ ⌈hypot (x2 - x1) (y2 - y1) / (dash + gap)⌉₊ := by
  by_cases hd : hypot (x2 - x1) (y2 - y1) = 0
  · exact ⟨[], by simp [drawDashedLine, hd], by simp⟩
  · have hpos : 0 < hypot (x2 - x1) (y2 - y1) :=
      lt_of_le_of_ne (hypot_nonneg _ _) (Ne.symm hd)
    exact ⟨_, drawDashedLine_eq x1 y1 x2 y2 dash gap hpos hgap hper fuel hfuel, by simp⟩

/-- With a scale `S > 0` every loop of `drawGraph` stops: with enough fuel it returns the four
runs of grid lines, the two axes with their arrowheads, the vector with its arrowhead and the two
dashed projections, in this order. -/
theorem drawGraph_eq (width height S : ℝ) (s : Sketch) (hS : 0 < S) :
    ∃ fuel0 : ℕ, ∀ fuel : ℕ, fuel0 ≤ fuel → ∃ d1 d2 : List (Line ℝ),
      drawDashedLine fuel (tip (bounds width height) S s).1 (bounds width height).oy
        (tip (bounds width height) S s).1 (tip (bounds width height) S s).2 8 6 = some d1 ∧
      drawDashedLine fuel (bounds width height).ox (tip (bounds width height) S s).2
        (tip (bounds width height) S s).1 (tip (bounds width height) S s).2 8 6 = some d2 ∧
      gridRight fuel (bounds width height) S
        = some ((List.range ⌊((bounds width height).right - (bounds width height).ox) / S + 1⌋₊).map
          fun k : ℕ => (⟨(bounds width height).ox + k * S, (bounds width height).top,
            (bounds width height).ox + k * S, (bounds width height).bottom⟩ : Line ℝ)) ∧
      gridLeft fuel (bounds width height) S
        = some ((List.range ⌊((bounds width height).ox - (bounds width height).left) / S + 1⌋₊).map
          fun k : ℕ => (⟨(bounds width height).ox - k * S, (bounds width height).top,
            (bounds width height).ox - k * S, (bounds width height).bottom⟩ : Line ℝ)) ∧
      gridDown fuel (bounds width height) S
        = some ((List.range ⌊((bounds width height).bottom - (bounds width height).oy) / S + 1⌋₊).map
          fun k : ℕ => (⟨(bounds width height).left, (bounds width height).oy + k * S,
            (bounds width height).right, (bounds width height).oy + k * S⟩ : Line ℝ)) ∧
      gridUp fuel (bounds width height) S
        = some ((List.range ⌊((bounds width height).oy - (bounds width height).top) / S + 1⌋₊).map
          fun k : ℕ => (⟨(bounds width height).left, (bounds width height).oy - k * S,
            (bounds width height).right, (bounds width height).oy - k * S⟩ : Line ℝ)) ∧
      ∀ g1 g2 g3 g4 : List (Line ℝ), gridRight fuel (bounds width height) S = some g1 →
        gridLeft fuel (bounds width height) S = some g2 →
        gridDown fuel (bounds width height) S = some g3 →
        gridUp fuel (bounds width height) S = some g4 →
        drawGraph fuel width height S s
          = some (g1 ++ g2 ++ g3 ++ g4
            ++ [⟨(bounds width height).left, (bounds width height).oy,
                  (bounds width height).right, (bounds width height).oy⟩,
                ⟨(bounds width height).ox, (bounds width height).top,
                  (bounds width height).ox, (bounds width height).bottom⟩]
            ++ drawArrow ((bounds width height).right - 10) (bounds width height).oy
                (bounds width height).right (bounds width height).oy
            ++ drawArrow (bounds width height).ox ((bounds width height).top + 10)
                (bounds width height).ox (bounds width height).top
            ++ [⟨(bounds width height).ox, (bounds width height).oy,
                  (tip (bounds width height) S s).1, (tip (bounds width height) S s).2⟩]
            ++ drawArrow (bounds width height).ox (bounds width height).oy
                (tip (bounds width height) S s).1 (tip (bounds width height) S s).2
            ++ d1 ++ d2) := by
  generalize hb : bounds width height = b
  generalize ht : tip b S s = t
  refine ⟨⌊(b.right - b.ox) / S + 1⌋₊ + ⌊(b.ox - b.left) / S + 1⌋₊
    + ⌊(b.bottom - b.oy) / S + 1⌋₊ + ⌊(b.oy - b.top) / S + 1⌋₊
    + 2 * ⌈hypot (t.1 - t.1) (t.2 - b.oy) / (8 + 6)⌉₊
    + 2 * ⌈hypot (t.1 - b.ox) (t.2 - t.2) / (8 + 6)⌉₊, ?_⟩
  intro fuel hfuel
  obtain ⟨d1, hd1, -⟩ := drawDashedLine_stops t.1 b.oy t.1 t.2 8 6 (by norm_num) (by norm_num)
    fuel (by omega)
  obtain ⟨d2, hd2, -⟩ := drawDashedLine_stops b.ox t.2 t.1 t.2 8 6 (by norm_num) (by norm_num)
    fuel (by omega)
  refine ⟨d1, d2, hd1, hd2, gridRight_eq b S hS fuel (by omega), gridLeft_eq b S hS fuel (by omega),
    gridDown_eq b S hS fuel (by omega), gridUp_eq b S hS fuel (by omega), ?_⟩
  intro g1 g2 g3 g4 h1 h2 h3 h4
  simp only [drawGraph, hb, ht, h1, h2, h3, h4, hd1, hd2]

/-! ## Arrows: lemmas -/

theorem hypot_edge (x2 y2 t : ℝ) :
    hypot (x2 + 12 * Real.cos t - x2) (y2 + 12 * Real.sin t - y2) = 12 := by
  unfold hypot
  have h : (x2 + 12 * Real.cos t - x2) * (x2 + 12 * Real.cos t - x2)
      + (y2 + 12 * Real.sin t - y2) * (y2 + 12 * Real.sin t - y2) = 12 ^ 2 := by
    have := Real.sin_sq_add_cos_sq t
    nlinarith [this]
  rw [h]
  exact Real.sqrt_sq (by norm_num)

theorem hypot_mul_cos_atan2 (x y : ℝ) : hypot x y * Real.cos (atan2 y x) = x :=
  sqrt_mul_cos_atan2 x y

theorem hypot_mul_sin_atan2 (x y : ℝ) : hypot x y * Real.sin (atan2 y x) = y :=
  sqrt_mul_sin_atan2 x y

theorem cos_radians_25_pos : 0 < Real.cos (radians 25) := by
  have hpi := Real.pi_pos
  apply Real.cos_pos_of_mem_Ioo
  unfold radians
  constructor <;> linarith

/-- The sum of the two edge directions lies along the axis: `cos (a - p) = 2 cos p cos a -
cos (a + p)`, and likewise for the sine. -/
theorem cos_sub_eq_reflect (a p : ℝ) :
    Real.cos (a - p)
      = 2 * (Real.cos (a + p) * Real.cos a + Real.sin (a + p) * Real.sin a) * Real.cos a
        - Real.cos (a + p) := by
  have h := Real.sin_sq_add_cos_sq a
  rw [Real.cos_sub, Real.cos_add, Real.sin_add]
  linear_combination (-(2 * Real.cos a * Real.cos p)) * h

theorem sin_sub_eq_reflect (a p : ℝ) :
    Real.sin (a - p)
      = 2 * (Real.cos (a + p) * Real.cos a + Real.sin (a + p) * Real.sin a) * Real.sin a
        - Real.sin (a + p) := by
  have h := Real.sin_sq_add_cos_sq a
  rw [Real.sin_sub, Real.cos_add, Real.sin_add]
  linear_combination (-(2 * Real.sin a * Real.cos p)) * h

/-- With a scale `S > 0` and enough fuel, the output of `drawGraph` starts with the four runs
of grid lines. -/
theorem drawGraph_grid_eq (width height S : ℝ) (s : Sketch) (b : Bounds)
    (hb : b = bounds width height) (hS : 0 < S) :
    ∃ fuel0 : ℕ, ∀ fuel : ℕ, fuel0 ≤ fuel → ∃ rest : List (Line ℝ),
      gridRight fuel b S
        = some ((List.range ⌊(b.right - b.ox) / S + 1⌋₊).map fun k : ℕ =>
          (⟨b.ox + k * S, b.top, b.ox + k * S, b.bottom⟩ : Line ℝ)) ∧
      gridLeft fuel b S
        = some ((List.range ⌊(b.ox - b.left) / S + 1⌋₊).map fun k : ℕ =>
          (⟨b.ox - k * S, b.top, b.ox - k * S, b.bottom⟩ : Line ℝ)) ∧
      gridDown fuel b S
        = some ((List.range ⌊(b.bottom - b.oy) / S + 1⌋₊).map fun k : ℕ =>
          (⟨b.left, b.oy + k * S, b.right, b.oy + k * S⟩ : Line ℝ)) ∧
      gridUp fuel b S
        = some ((List.range ⌊(b.oy - b.top) / S + 1⌋₊).map fun k : ℕ =>
          (⟨b.left, b.oy - k * S, b.right, b.oy - k * S⟩ : Line ℝ)) ∧
      drawGraph fuel width height S s
        = some (((List.range ⌊(b.right - b.ox) / S + 1⌋₊).map fun k : ℕ =>
              (⟨b.ox + k * S, b.top, b.ox + k * S, b.bottom⟩ : Line ℝ))
          ++ ((List.range ⌊(b.ox - b.left) / S + 1⌋₊).map fun k : ℕ =>
              (⟨b.ox - k * S, b.top, b.ox - k * S, b.bottom⟩ : Line ℝ))
          ++ ((List.range ⌊(b.bottom - b.oy) / S + 1⌋₊).map fun k : ℕ =>
              (⟨b.left, b.oy + k * S, b.right, b.oy + k * S⟩ : Line ℝ))
          ++ ((List.range ⌊(b.oy - b.top) / S + 1⌋₊).map fun k : ℕ =>
              (⟨b.left, b.oy - k * S, b.right, b.oy - k * S⟩ : Line ℝ))
          ++ rest) := by
  subst hb
  obtain ⟨fuel0, h⟩ := drawGraph_eq width height S s hS
  refine ⟨fuel0, fun fuel hfuel => ?_⟩
  obtain ⟨d1, d2, -, -, h1, h2, h3, h4, hrun⟩ := h fuel hfuel
  refine ⟨[⟨(bounds width height).left, (bounds width height).oy,
        (bounds width height).right, (bounds width height).oy⟩,
      ⟨(bounds width height).ox, (bounds width height).top,
        (bounds width height).ox, (bounds width height).bottom⟩]
    ++ drawArrow ((bounds width height).right - 10) (bounds width height).oy
        (bounds width height).right (bounds width height).oy
    ++ drawArrow (bounds width height).ox ((bounds width height).top + 10)
        (bounds width height).ox (bounds width height).top
    ++ [⟨(bounds width height).ox, (bounds width height).oy,
        (tip (bounds width height) S s).1, (tip (bounds width height) S s).2⟩]
    ++ drawArrow (bounds width height).ox (bounds width height).oy
        (tip (bounds width height) S s).1 (tip (bounds width height) S s).2
    ++ d1 ++ d2, h1, h2, h3, h4, ?_⟩
  rw [hrun _ _ _ _ h1 h2 h3 h4]
  simp only [List.append_assoc]

theorem mem_map_range_vertical (f : ℕ → ℝ) (n : ℕ) (top bottom x : ℝ) :
    (⟨x, top, x, bottom⟩ : Line ℝ)
        ∈ (List.range n).map (fun k : ℕ => (⟨f k, top, f k, bottom⟩ : Line ℝ))
      ↔ ∃ k : ℕ, k < n ∧ f k = x := by
  simp only [List.mem_map, List.mem_range, Line.mk.injEq]
  constructor
  · rintro ⟨k, hk, h⟩
    exact ⟨k, hk, h.1⟩
  · rintro ⟨k, hk, h⟩
    refine ⟨k, hk, ?_⟩
    simp [h]

theorem mem_map_range_horizontal (f : ℕ → ℝ) (n : ℕ) (left right y : ℝ) :
    (⟨left, y, right, y⟩ : Line ℝ)
        ∈ (List.range n).map (fun k : ℕ => (⟨left, f k, right, f k⟩ : Line ℝ))
      ↔ ∃ k : ℕ, k < n ∧ f k = y := by
  simp only [List.mem_map, List.mem_range, Line.mk.injEq]
  constructor
  · rintro ⟨k, hk, h⟩
    exact ⟨k, hk, h.2.1⟩
  · rintro ⟨k, hk, h⟩
    refine ⟨k, hk, ?_⟩
    simp [h]

theorem head_map_range {α : Type} (f : ℕ → α) {n : ℕ} (hn : 0 < n) :
    ((List.range n).map f).head? = some (f 0) := by
  obtain ⟨m, rfl⟩ : ∃ m, n = m + 1 := ⟨n - 1, by omega⟩
  rw [List.range_succ_eq_map]
  rfl

/-! ## Parsing: lemmas -/

theorem parseFloatSafe_of_nan {str : String} (dflt : ℝ)
    (h : parseFloat (trim str.data) = .nan) : parseFloatSafe str dflt = dflt := by
  simp [parseFloatSafe, h]

theorem parseFloatSafe_of_decimal {str : String} (dflt : ℝ) {v : Decimal}
    (h : parseFloat (trim str.data) = .decimal v) :
    parseFloatSafe str dflt = ((v.toNumber : ℚ) : ℝ) := by
  simp [parseFloatSafe, h]

/-- The Number value of a literal whose nearest double `q` is finite. -/
theorem Decimal.toNumber_eq {d : Decimal} {q : ℚ} (hq : Binary64.round d.toRat = q)
    (h1 : q < 2 ^ 1024) (h2 : -2 ^ 1024 < q) : d.toNumber = q := by
  unfold Decimal.toNumber
  simp only [hq]
  rw [if_neg (not_le.2 h1), if_neg (not_le.2 h2)]

/-- A literal of value zero, of either sign, is read as the number 0. -/
theorem Decimal.toNumber_zero (neg : Bool) (e : ℤ) : (⟨neg, 0, e⟩ : Decimal).toNumber = 0 :=
  Decimal.toNumber_eq (by simp [Decimal.toRat, Binary64.round_zero]) (by norm_num) (by norm_num)

/-- A literal that is a natural number below `2 ^ 53` is read exactly. -/
theorem Decimal.toNumber_natCast {n : ℕ} (hn : n < 2 ^ 53) :
    (⟨false, n, 0⟩ : Decimal).toNumber = n := by
  apply Decimal.toNumber_eq
  · have h : (⟨false, n, 0⟩ : Decimal).toRat = (n : ℚ) := by simp [Decimal.toRat]
    rw [h, Binary64.round_natCast hn]
  · calc (n : ℚ) < ((2 ^ 53 : ℕ) : ℚ) := by exact_mod_cast hn
      _ < 2 ^ 1024 := by norm_num
  · have h0 : (0 : ℚ) ≤ n := Nat.cast_nonneg n
    have : (-2 ^ 1024 : ℚ) < 0 := by norm_num
    linarith

theorem parseFloatSafe_empty (dflt : ℝ) : parseFloatSafe "" dflt = dflt :=
  parseFloatSafe_of_nan dflt (by decide)

theorem parseFloatSafe_abc (dflt : ℝ) : parseFloatSafe "abc" dflt = dflt :=
  parseFloatSafe_of_nan dflt (by decide)

theorem parseFloatSafe_zero (dflt : ℝ) : parseFloatSafe "0" dflt = 0 := by
  rw [parseFloatSafe_of_decimal dflt
    (show parseFloat (trim "0".data) = .decimal ⟨false, 0, 0⟩ by decide),
    Decimal.toNumber_zero]
  norm_num

theorem parseFloatSafe_three (dflt : ℝ) : parseFloatSafe "3" dflt = 3 := by
  rw [parseFloatSafe_of_decimal dflt
    (show parseFloat (trim "3".data) = .decimal ⟨false, 3, 0⟩ by decide),
    Decimal.toNumber_natCast (by norm_num)]
  norm_num

theorem parseFloatSafe_five (dflt : ℝ) : parseFloatSafe "5" dflt = 5 := by
  rw [parseFloatSafe_of_decimal dflt
    (show parseFloat (trim "5".data) = .decimal ⟨false, 5, 0⟩ by decide),
    Decimal.toNumber_natCast (by norm_num)]
  norm_num

theorem parseFloatSafe_thirty (dflt : ℝ) : parseFloatSafe "30" dflt = 30 := by
  rw [parseFloatSafe_of_decimal dflt
    (show parseFloat (trim "30".data) = .decimal ⟨false, 30, 0⟩ by decide),
    Decimal.toNumber_natCast (by norm_num)]
  norm_num

theorem parseFloatSafe_neg_one (dflt : ℝ) : parseFloatSafe "-1" dflt = -1 := by
  have hr : Binary64.round (-1 : ℚ) = -1 := by
    rw [Binary64.round_eq 0 (-4503599627370496) (by norm_num) (by norm_num) (by norm_num)
      (Binary64.roundEven_eq (by norm_num [abs_lt]))]
    norm_num
  rw [parseFloatSafe_of_decimal dflt
    (show parseFloat (trim "-1".data) = .decimal ⟨true, 1, 0⟩ by decide),
    Decimal.toNumber_eq (q := -1) (by simpa [Decimal.toRat] using hr) (by norm_num)
      (by norm_num)]
  norm_num

theorem parseFloatSafe_neg_five (dflt : ℝ) : parseFloatSafe "-5" dflt = -5 := by
  have hr : Binary64.round (-5 : ℚ) = -5 := by
    rw [Binary64.round_eq 2 (-5629499534213120) (by norm_num) (by norm_num) (by norm_num)
      (Binary64.roundEven_eq (by norm_num [abs_lt]))]
    norm_num
  rw [parseFloatSafe_of_decimal dflt
    (show parseFloat (trim "-5".data) = .decimal ⟨true, 5, 0⟩ by decide),
    Decimal.toNumber_eq (q := -5) (by simpa [Decimal.toRat] using hr) (by norm_num)
      (by norm_num)]
  norm_num

/-- The text `0.1` is read as the double `3602879701896397 / 2 ^ 55`. -/
theorem parseFloatSafe_tenth (dflt : ℝ) :
    parseFloatSafe "0.1" dflt = 3602879701896397 / 36028797018963968 := by
  have hr : Binary64.round (1 / 10 : ℚ) = 3602879701896397 / 36028797018963968 := by
    rw [Binary64.round_eq (-4) 7205759403792794 (by norm_num [abs_of_pos])
      (by norm_num [abs_of_pos]) (by norm_num) (Binary64.roundEven_eq (by norm_num [abs_lt]))]
    norm_num
  rw [parseFloatSafe_of_decimal dflt
    (show parseFloat (trim "0.1".data) = .decimal ⟨false, 1, -1⟩ by decide),
    Decimal.toNumber_eq (q := 3602879701896397 / 36028797018963968)
      (by simpa [Decimal.toRat] using hr) (by norm_num) (by norm_num)]
  norm_num

/-- The text `-8.470329472543003e-22` is read as the double `-2 ^ -70`. -/
theorem parseFloatSafe_tiny_negative (dflt : ℝ) :
    parseFloatSafe "-8.470329472543003e-22" dflt = -(1 / 2 ^ 70) := by
  have hr : Binary64.round (-(8470329472543003 / 10 ^ 37) : ℚ) = -(1 / 2 ^ 70) := by
    rw [Binary64.round_eq (-71) (-9007199254740992)
      (by rw [abs_neg, abs_of_pos (by norm_num)]; norm_num)
      (by rw [abs_neg, abs_of_pos (by norm_num)]; norm_num) (by norm_num)
      (Binary64.roundEven_eq (by norm_num [abs_lt]))]
    norm_num
  have hrat : (⟨true, 8470329472543003, -37⟩ : Decimal).toRat
      = -(8470329472543003 / 10 ^ 37) := by
    simp only [Decimal.toRat, if_true]
    norm_num
  rw [parseFloatSafe_of_decimal dflt
    (show parseFloat (trim "-8.470329472543003e-22".data)
      = .decimal ⟨true, 8470329472543003, -37⟩ by decide),
    Decimal.toNumber_eq (q := -(1 / 2 ^ 70)) (by rw [hrat]; exact hr) (by norm_num)
      (by norm_num)]
  norm_num

/-! ## Conversion: lemmas -/

theorem cartesianToPolar_zero : cartesianToPolar 0 0 = (0, 0) := by
  have h : normalizeDeg (0 : ℝ) = 0 := normalizeDeg_of_mem le_rfl (by norm_num)
  simp [cartesianToPolar, atan2_zero_zero, degrees, h]

/-! ## Rounding against a double: lemmas -/

namespace Binary64

section RoundingBound

variable {K : Type} [LinearOrderedField K] [FloorRing K]

theorem ulpExp_mono {x B : K} (h0 : 0 < x) (h : x ≤ B) : ulpExp x ≤ ulpExp B := by
  have hB : 0 < B := lt_of_lt_of_le h0 h
  unfold ulpExp
  rw [abs_of_pos h0, abs_of_pos hB]
  have := Int.log_mono_right (b := 2) h0 h
  exact max_le_max (by omega) le_rfl

/-- Rounding does not cross a double: a value `x > 0` that does not exceed the double `B` is
rounded to a double that does not exceed `B`. -/
theorem round_le_of_le {x B : K} (h0 : 0 < x) (h : x ≤ B) (n : ℤ)
    (hB : B = (n : K) * (2 : K) ^ ulpExp B) : round x ≤ B := by
  have hk := ulpExp_mono h0 h
  obtain ⟨j, hj⟩ : ∃ j : ℕ, ulpExp x + j = ulpExp B := ⟨(ulpExp B - ulpExp x).toNat, by omega⟩
  have hsplit : (2 : K) ^ ulpExp B = (2 : K) ^ j * (2 : K) ^ ulpExp x := by
    rw [← zpow_natCast (2 : K) j, ← zpow_add₀ (by norm_num : (2 : K) ≠ 0)]
    congr 1
    omega
  have hB2 : B = (((n * 2 ^ j : ℤ) : ℤ) : K) * (2 : K) ^ ulpExp x := by
    push_cast
    rw [mul_assoc, ← hsplit]
    exact hB
  have ht : x / (2 : K) ^ ulpExp x ≤ (((n * 2 ^ j : ℤ) : ℤ) : K) := by
    rw [div_le_iff₀ (two_zpow_pos _), ← hB2]
    exact h
  have hr := roundEven_le ht
  unfold round
  calc (roundEven (x / (2 : K) ^ ulpExp x) : K) * (2 : K) ^ ulpExp x
      ≤ (((n * 2 ^ j : ℤ) : ℤ) : K) * (2 : K) ^ ulpExp x := by
        apply mul_le_mul_of_nonneg_right _ (two_zpow_pos _).le
        exact_mod_cast hr
    _ = B := hB2.symm

end RoundingBound

end Binary64

section Range

variable {K : Type} [LinearOrderedField K] [FloorRing K]

theorem jsRem_of_neg {a : K} (h : a < 0) : -360 < jsRem a 360 ∧ jsRem a 360 ≤ 0 := by
  have h360 : (0 : K) < 360 := by norm_num
  have hq : ¬ (0 : K) ≤ a / 360 := not_le.2 (div_neg_of_neg_of_pos h h360)
  have hc1 : a / 360 ≤ (⌈a / 360⌉ : K) := Int.le_ceil _
  have hc2 : (⌈a / 360⌉ : K) < a / 360 + 1 := Int.ceil_lt_add_one _
  rw [div_le_iff₀ h360] at hc1
  rw [← sub_lt_iff_lt_add, lt_div_iff₀ h360] at hc2
  unfold jsRem jsTrunc
  rw [if_neg hq]
  constructor <;> linarith

/-- The result of `normalizeDeg` lies in the closed range `[0, 360]`. -/
theorem normalizeDeg_range (a : K) : 0 ≤ normalizeDeg a ∧ normalizeDeg a ≤ 360 := by
  by_cases h : 0 ≤ a
  · obtain ⟨_, h1, h2⟩ := normalizeDeg_of_nonneg h
    exact ⟨h1, h2.le⟩
  · obtain ⟨h1, h2⟩ := jsRem_of_neg (lt_of_not_le h)
    have h360 : (360 : K) = ((6333186975989760 : ℤ) : K) * (2 : K) ^ Binary64.ulpExp (360 : K) := by
      rw [Binary64.ulpExp_eq (e := 8) (by norm_num [abs_of_pos]) (by norm_num [abs_of_pos])
        (by norm_num)]
      norm_num
    unfold normalizeDeg
    simp only
    split_ifs with hx
    · exact ⟨Binary64.round_nonneg (by linarith),
        Binary64.round_le_of_le (by linarith) (by linarith) _ h360⟩
    · exact ⟨not_lt.1 hx, by linarith⟩

theorem jsRem_of_mem_neg {a : K} (h0 : -360 < a) (h1 : a < 0) : jsRem a 360 = a := by
  have h360 : (0 : K) < 360 := by norm_num
  have hq : ¬ (0 : K) ≤ a / 360 := not_le.2 (div_neg_of_neg_of_pos h1 h360)
  have hc : ⌈a / 360⌉ = 0 := by
    rw [Int.ceil_eq_iff]
    constructor
    · rw [lt_div_iff₀ h360]; push_cast; linarith
    · push_cast; exact (div_neg_of_neg_of_pos h1 h360).le
  unfold jsRem jsTrunc
  rw [if_neg hq, hc]
  simp

/-- When the remainder `a % 360` is negative and at most `-2 ^ -44`, the sum with 360 is rounded
to a double below 360: `normalizeDeg a` lies in `[0, 360)`. -/
theorem normalizeDeg_of_rem_le {a : K} (h : jsRem a 360 ≤ -(1 / 2 ^ 44)) :
    0 ≤ normalizeDeg a ∧ normalizeDeg a < 360 := by
  have hx : jsRem a 360 < 0 := lt_of_le_of_lt h (by norm_num)
  have ha : a < 0 := by
    by_contra hge
    have h0 := not_lt.1 hge
    have hf : (⌊a / 360⌋ : K) ≤ a / 360 := Int.floor_le _
    rw [le_div_iff₀ (by norm_num : (0 : K) < 360)] at hf
    rw [jsRem_of_nonneg h0] at hx
    linarith
  obtain ⟨h1, _⟩ := jsRem_of_neg ha
  have hB : (360 - 1 / 2 ^ 44 : K) = ((6333186975989759 : ℤ) : K)
      * (2 : K) ^ Binary64.ulpExp (360 - 1 / 2 ^ 44 : K) := by
    rw [Binary64.ulpExp_eq (e := 8) (by norm_num [abs_of_pos]) (by norm_num [abs_of_pos])
      (by norm_num)]
    norm_num
  have hle : Binary64.round (jsRem a 360 + 360) ≤ 360 - 1 / 2 ^ 44 :=
    Binary64.round_le_of_le (by linarith) (by linarith) _ hB
  unfold normalizeDeg
  simp only [if_pos hx]
  refine ⟨Binary64.round_nonneg (by linarith), lt_of_le_of_lt hle ?_⟩
  norm_num

end Range

/-! ## Angle normalisation on doubles: the rounded sum -/

theorem round_near_360 : Binary64.round (-(1 / 2 ^ 70) + 360 : ℝ) = 360 := by
  rw [Binary64.round_eq 8 6333186975989760 (by norm_num [abs_of_pos])
    (by norm_num [abs_of_pos]) (by norm_num) (Binary64.roundEven_eq (by norm_num [abs_lt]))]
  norm_num

theorem jsRem_tiny_negative : jsRem (-(1 / 2 ^ 70) : ℝ) 360 = -(1 / 2 ^ 70) := by
  have hq : ¬ (0 : ℝ) ≤ -(1 / 2 ^ 70) / 360 := by norm_num
  have hc : ⌈(-(1 / 2 ^ 70) / 360 : ℝ)⌉ = 0 := by
    rw [Int.ceil_eq_iff]
    norm_num
  unfold jsRem jsTrunc
  rw [if_neg hq, hc]
  norm_num

/-- The double `-2 ^ -70` is normalised to 360: its remainder is itself, negative, and the sum
`-2 ^ -70 + 360` is rounded to 360. -/
theorem normalizeDeg_tiny_negative : normalizeDeg (-(1 / 2 ^ 70) : ℝ) = 360 := by
  unfold normalizeDeg
  simp only [jsRem_tiny_negative]
  rw [if_pos (by norm_num), round_near_360]

theorem normalizeDeg_360 : normalizeDeg (360 : ℝ) = 0 := by
  have h := normalizeDeg_mul_int (K := ℝ) 1
  simpa using h

theorem normalizeDeg_neg_30 : normalizeDeg (-30 : ℝ) = 330 := by
  have hq : ¬ (0 : ℝ) ≤ -30 / 360 := by norm_num
  have hc : ⌈(-30 / 360 : ℝ)⌉ = 0 := by
    rw [Int.ceil_eq_iff]
    norm_num
  have hx : jsRem (-30 : ℝ) 360 = -30 := by
    unfold jsRem jsTrunc
    rw [if_neg hq, hc]
    norm_num
  have hr : Binary64.round (-30 + 360 : ℝ) = 330 := by
    rw [Binary64.round_eq 8 5805421394657280 (by norm_num [abs_of_pos])
      (by norm_num [abs_of_pos]) (by norm_num) (Binary64.roundEven_eq (by norm_num [abs_lt]))]
    norm_num
  unfold normalizeDeg
  simp only [hx]
  rw [if_pos (by norm_num), hr]

theorem normalizeDeg_720 : normalizeDeg (720 : ℝ) = 0 := by
  have h := normalizeDeg_mul_int (K := ℝ) 2
  have harg : (360 : ℝ) * ((2 : ℤ) : ℝ) = 720 := by norm_num
  rwa [harg] at h

/-- For a point with `vy ≥ 0` the angle `degrees (atan2 vy vx)` lies in `[0, 180]`. -/
theorem degrees_atan2_of_nonneg (vx : ℝ) {vy : ℝ} (h : 0 ≤ vy) :
    0 ≤ degrees (atan2 vy vx) ∧ degrees (atan2 vy vx) ≤ 180 := by
  have hpi := Real.pi_pos
  have h0 : 0 ≤ atan2 vy vx := by
    unfold atan2
    exact Complex.arg_nonneg_iff.2 h
  have h1 : atan2 vy vx ≤ Real.pi := by
    unfold atan2
    exact Complex.arg_le_pi _
  unfold degrees
  constructor
  · positivity
  · rw [← mul_div_assoc, div_le_iff₀ hpi]
    nlinarith

/-! ## Dashed lines on doubles: lemmas -/

namespace Binary64

/-! The roundings met on the line from `(0, 0)` to `(1, 0)` with `dash = gap = 0.1`: the double
`0.1` is `3602879701896397 / 2 ^ 55`, and the running distance takes the values `0.1`, `0.2`,
`0.30000000000000004`, `0.4`, `0.5`, `0.6`, `0.7`, `0.7999999999999999`, `0.8999999999999999`,
`0.9999999999999999`, `1.0999999999999999`. -/

theorem round_lit1 :
    round (3602879701896397 / 36028797018963968 : ℝ) = 3602879701896397 / 36028797018963968 := by
  rw [round_eq (-4) 7205759403792794 (by norm_num [abs_of_pos])
    (by norm_num [abs_of_pos]) (by norm_num)
    (roundEven_eq (by norm_num [abs_lt]))]
  norm_num

theorem round_lit2 :
    round (3602879701896397 / 18014398509481984 : ℝ) = 3602879701896397 / 18014398509481984 := by
  rw [round_eq (-3) 7205759403792794 (by norm_num [abs_of_pos])
    (by norm_num [abs_of_pos]) (by norm_num)
    (roundEven_eq (by norm_num [abs_lt]))]
  norm_num

theorem round_lit3 :
    round (10808639105689191 / 36028797018963968 : ℝ) = 1351079888211149 / 4503599627370496 := by
  rw [round_eq (-2) 5404319552844596 (by norm_num [abs_of_pos])
    (by norm_num [abs_of_pos]) (by norm_num)
    ((roundEven_tie (m := 5404319552844595) (by norm_num)).trans (by norm_num))]
  norm_num

theorem round_lit4 :
    round (1351079888211149 / 4503599627370496 : ℝ) = 1351079888211149 / 4503599627370496 := by
  rw [round_eq (-2) 5404319552844596 (by norm_num [abs_of_pos])
    (by norm_num [abs_of_pos]) (by norm_num)
    (roundEven_eq (by norm_num [abs_lt]))]
  norm_num

theorem round_lit5 :
    round (14411518807585589 / 36028797018963968 : ℝ) = 3602879701896397 / 9007199254740992 := by
  rw [round_eq (-2) 7205759403792794 (by norm_num [abs_of_pos])
    (by norm_num [abs_of_pos]) (by norm_num)
    ((roundEven_tie (m := 7205759403792794) (by norm_num)).trans (by norm_num))]
  norm_num

theorem round_lit6 :
    round (3602879701896397 / 9007199254740992 : ℝ) = 3602879701896397 / 9007199254740992 := by
  rw [round_eq (-2) 7205759403792794 (by norm_num [abs_of_pos])
    (by norm_num [abs_of_pos]) (by norm_num)
    (roundEven_eq (by norm_num [abs_lt]))]
  norm_num

theorem round_lit7 :
    round (18014398509481985 / 36028797018963968 : ℝ) = 1 / 2 := by
  rw [round_eq (-1) 4503599627370496 (by norm_num [abs_of_pos])
    (by norm_num [abs_of_pos]) (by norm_num)
    (roundEven_eq (by norm_num [abs_lt]))]
  norm_num

theorem round_lit8 :
    round (1 / 2 : ℝ) = 1 / 2 := by
  rw [round_eq (-1) 4503599627370496 (by norm_num [abs_of_pos])
    (by norm_num [abs_of_pos]) (by norm_num)
    (roundEven_eq (by norm_num [abs_lt]))]
  norm_num

theorem round_lit9 :
    round (21617278211378381 / 36028797018963968 : ℝ) = 5404319552844595 / 9007199254740992 := by
  rw [round_eq (-1) 5404319552844595 (by norm_num [abs_of_pos])
    (by norm_num [abs_of_pos]) (by norm_num)
    (roundEven_eq (by norm_num [abs_lt]))]
  norm_num

theorem round_lit10 :
    round (5404319552844595 / 9007199254740992 : ℝ) = 5404319552844595 / 9007199254740992 := by
  rw [round_eq (-1) 5404319552844595 (by norm_num [abs_of_pos])
    (by norm_num [abs_of_pos]) (by norm_num)
    (roundEven_eq (by norm_num [abs_lt]))]
  norm_num

theorem round_lit11 :
    round (25220157913274777 / 36028797018963968 : ℝ) = 3152519739159347 / 4503599627370496 := by
  rw [round_eq (-1) 6305039478318694 (by norm_num [abs_of_pos])
    (by norm_num [abs_of_pos]) (by norm_num)
    (roundEven_eq (by norm_num [abs_lt]))]
  norm_num

theorem round_lit12 :
    round (3152519739159347 / 4503599627370496 : ℝ) = 3152519739159347 / 4503599627370496 := by
  rw [round_eq (-1) 6305039478318694 (by norm_num [abs_of_pos])
    (by norm_num [abs_of_pos]) (by norm_num)
    (roundEven_eq (by norm_num [abs_lt]))]
  norm_num

theorem round_lit13 :
    round (28823037615171173 / 36028797018963968 : ℝ) = 7205759403792793 / 9007199254740992 := by
  rw [round_eq (-1) 7205759403792793 (by norm_num [abs_of_pos])
    (by norm_num [abs_of_pos]) (by norm_num)
    (roundEven_eq (by norm_num [abs_lt]))]
  norm_num

theorem round_lit14 :
    round (7205759403792793 / 9007199254740992 : ℝ) = 7205759403792793 / 9007199254740992 := by
  rw [round_eq (-1) 7205759403792793 (by norm_num [abs_of_pos])
    (by norm_num [abs_of_pos]) (by norm_num)
    (roundEven_eq (by norm_num [abs_lt]))]
  norm_num

theorem round_lit15 :
    round (32425917317067569 / 36028797018963968 : ℝ) = 2026619832316723 / 2251799813685248 := by
  rw [round_eq (-1) 8106479329266892 (by norm_num [abs_of_pos])
    (by norm_num [abs_of_pos]) (by norm_num)
    (roundEven_eq (by norm_num [abs_lt]))]
  norm_num

theorem round_lit16 :
    round (2026619832316723 / 2251799813685248 : ℝ) = 2026619832316723 / 2251799813685248 := by
  rw [round_eq (-1) 8106479329266892 (by norm_num [abs_of_pos])
    (by norm_num [abs_of_pos]) (by norm_num)
    (roundEven_eq (by norm_num [abs_lt]))]
  norm_num

theorem round_lit17 :
    round (36028797018963965 / 36028797018963968 : ℝ) = 9007199254740991 / 9007199254740992 := by
  rw [round_eq (-1) 9007199254740991 (by norm_num [abs_of_pos])
    (by norm_num [abs_of_pos]) (by norm_num)
    (roundEven_eq (by norm_num [abs_lt]))]
  norm_num

theorem round_lit18 :
    round (9007199254740991 / 9007199254740992 : ℝ) = 9007199254740991 / 9007199254740992 := by
  rw [round_eq (-1) 9007199254740991 (by norm_num [abs_of_pos])
    (by norm_num [abs_of_pos]) (by norm_num)
    (roundEven_eq (by norm_num [abs_lt]))]
  norm_num

theorem round_lit19 :
    round (39631676720860361 / 36028797018963968 : ℝ) = 4953959590107545 / 4503599627370496 := by
  rw [round_eq 0 4953959590107545 (by norm_num [abs_of_pos])
    (by norm_num [abs_of_pos]) (by norm_num)
    (roundEven_eq (by norm_num [abs_lt]))]
  norm_num

theorem round_lit20 :
    round (4953959590107545 / 4503599627370496 : ℝ) = 4953959590107545 / 4503599627370496 := by
  rw [round_eq 0 4953959590107545 (by norm_num [abs_of_pos])
    (by norm_num [abs_of_pos]) (by norm_num)
    (roundEven_eq (by norm_num [abs_lt]))]
  norm_num

theorem round_lit21 :
    round (1 : ℝ) = 1 := by
  rw [round_eq 0 4503599627370496 (by norm_num [abs_of_pos])
    (by norm_num [abs_of_pos]) (by norm_num)
    (roundEven_eq (by norm_num [abs_lt]))]
  norm_num

theorem hypot_one_zero : hypot 1 0 = 1 := by simp [hypot]

/-- On doubles, `drawDashedLine(0, 0, 1, 0, 0.1, 0.1)` has not stopped after 10 iterations: the
running distance is then `0.9999999999999999`. -/
theorem drawDashedLine_tenths_10 :
    drawDashedLine 10 0 0 1 0 (3602879701896397 / 36028797018963968)
      (3602879701896397 / 36028797018963968) = none := by
  norm_num [drawDashedLine, dashLoop, hypot_one_zero, round_zero, min_def,
    round_lit1, round_lit2, round_lit3, round_lit4, round_lit5, round_lit6, round_lit7,
    round_lit8, round_lit9, round_lit10, round_lit11, round_lit12, round_lit13, round_lit14,
    round_lit15, round_lit16, round_lit17, round_lit18, round_lit19, round_lit20, round_lit21]

/-- On doubles, `drawDashedLine(0, 0, 1, 0, 0.1, 0.1)` stops after 11 iterations and draws six
segments, the sixth from `0.9999999999999999` to `1`. -/
theorem drawDashedLine_tenths_11 :
    drawDashedLine 11 0 0 1 0 (3602879701896397 / 36028797018963968)
        (3602879701896397 / 36028797018963968)
      = some [⟨0, 0, 3602879701896397 / 36028797018963968, 0⟩,
          ⟨3602879701896397 / 18014398509481984, 0, 1351079888211149 / 4503599627370496, 0⟩,
          ⟨3602879701896397 / 9007199254740992, 0, 1 / 2, 0⟩,
          ⟨5404319552844595 / 9007199254740992, 0, 3152519739159347 / 4503599627370496, 0⟩,
          ⟨7205759403792793 / 9007199254740992, 0, 2026619832316723 / 2251799813685248, 0⟩,
          ⟨9007199254740991 / 9007199254740992, 0, 1, 0⟩] := by
  norm_num [drawDashedLine, dashLoop, hypot_one_zero, round_zero, min_def,
    round_lit1, round_lit2, round_lit3, round_lit4, round_lit5, round_lit6, round_lit7,
    round_lit8, round_lit9, round_lit10, round_lit11, round_lit12, round_lit13, round_lit14,
    round_lit15, round_lit16, round_lit17, round_lit18, round_lit19, round_lit20, round_lit21]

theorem ceil_tenths :
    ⌈(1 : ℝ) / (3602879701896397 / 36028797018963968
      + 3602879701896397 / 36028797018963968)⌉₊ = 5 := by
  rw [Nat.ceil_eq_iff (by norm_num)]
  norm_num

/-- On natural numbers below `2 ^ 53` the loop on doubles is the exact loop: no sum is
rounded. -/
theorem dashLoop_natCast (D A G : ℕ) (hb : D + A + G < 2 ^ 53) :
    ∀ (fuel P : ℕ) (b : Bool),
      dashLoop (0 : ℝ) 0 1 0 D A G fuel P b = Vectors.dashLoop (0 : ℝ) 0 1 0 D A G fuel P b := by
  intro fuel
  induction fuel with
  | zero => intro P b; rfl
  | succ fuel ih =>
    intro P b
    by_cases hP : (P : ℝ) < D
    · have hPn : P < D := by exact_mod_cast hP
      have hstep : ((if b then (A : ℝ) else G) : ℝ) = ((if b then A else G : ℕ) : ℝ) := by
        cases b <;> simp
      have hst : (if b then A else G) ≤ A + G := by cases b <;> simp
      have hsum : round ((P : ℝ) + ((if b then A else G : ℕ) : ℝ))
          = ((P + (if b then A else G) : ℕ) : ℝ) := by
        rw [← Nat.cast_add]
        exact round_natCast (by omega)
      have hmin : min (D : ℝ) ((P + (if b then A else G) : ℕ) : ℝ)
          = ((min D (P + (if b then A else G)) : ℕ) : ℝ) := (Nat.cast_min _ _).symm
      have hrm : round (((min D (P + (if b then A else G)) : ℕ) : ℝ))
          = ((min D (P + (if b then A else G)) : ℕ) : ℝ) :=
        round_natCast (lt_of_le_of_lt (min_le_left _ _) (by omega))
      have hrP : round (P : ℝ) = P := round_natCast (by omega)
      have hnext := ih (P + (if b then A else G)) (!b)
      simp only [dashLoop, Vectors.dashLoop, if_pos hP, hstep, hsum, hmin, one_mul, zero_mul,
        zero_add, round_zero, hrm, hrP, hnext]
      rw [← Nat.cast_add, hmin]
    · simp only [dashLoop, Vectors.dashLoop, if_neg hP]

/-- On a horizontal line from the origin, of natural length, with natural dash and gap, all
below `2 ^ 53`, `drawDashedLine` on doubles is the exact `drawDashedLine`. -/
theorem drawDashedLine_natCast (D A G : ℕ) (hD : 0 < D) (hb : D + A + G < 2 ^ 53) (fuel : ℕ) :
    drawDashedLine fuel 0 0 D 0 A G = Vectors.drawDashedLine fuel 0 0 D 0 A G := by
  have hDpos : (0 : ℝ) < D := by exact_mod_cast hD
  have hrD : round (D : ℝ) = D := round_natCast (by omega)
  have hh : hypot (D : ℝ) 0 = D := by
    have := hypot_self_zero hDpos.le
    simpa using this
  have h1 : round (1 : ℝ) = 1 := by
    have := round_natCast (K := ℝ) (n := 1) (by norm_num)
    simpa using this
  have hloop := dashLoop_natCast D A G hb fuel 0 true
  simp only [Nat.cast_zero] at hloop
  simp only [drawDashedLine, Vectors.drawDashedLine, sub_zero, hrD, round_zero, hh,
    if_neg hDpos.ne', div_self hDpos.ne', h1, zero_div, hloop]

/-- On a line of length `2 ^ 60` with the step 8 or 6, the running distance never leaves
`[0, 2 ^ 57]`: from `2 ^ 57` on, `pos + step` is rounded back to `pos`. -/
theorem dashLoop_stuck (x1 y1 ux uy : ℝ) :
    ∀ (fuel : ℕ) (pos : ℝ) (b : Bool), 0 ≤ pos → pos ≤ 2 ^ 57 →
      dashLoop x1 y1 ux uy (2 ^ 60) 8 6 fuel pos b = none := by
  intro fuel
  induction fuel with
  | zero =>
    intro pos b _ h1
    have hlt : pos < 2 ^ 60 := lt_of_le_of_lt h1 (by norm_num)
    simp only [dashLoop, if_pos hlt]
  | succ fuel ih =>
    intro pos b h0 h1
    have hlt : pos < 2 ^ 60 := lt_of_le_of_lt h1 (by norm_num)
    have hs0 : (0 : ℝ) ≤ if b then 8 else 6 := by cases b <;> norm_num
    have hs1 : (if b then (8 : ℝ) else 6) ≤ 8 := by cases b <;> norm_num
    have hnext := ih (round (pos + if b then 8 else 6)) (!b)
      (round_nonneg (by linarith)) (round_le_two_pow_57 (by linarith) (by linarith))
    simp only [dashLoop, if_pos hlt, hnext]

theorem round_two_pow_60 : round ((2 : ℝ) ^ 60) = 2 ^ 60 := by
  rw [round_eq 60 4503599627370496 (by norm_num [abs_of_pos]) (by norm_num [abs_of_pos])
    (by norm_num) (roundEven_eq (by norm_num [abs_lt]))]
  norm_num

/-- On doubles, `drawDashedLine(0, 0, 2 ^ 60, 0, 8, 6)` never stops. -/
theorem drawDashedLine_stuck (fuel : ℕ) : drawDashedLine fuel 0 0 (2 ^ 60) 0 8 6 = none := by
  have hh : hypot ((2 : ℝ) ^ 60) 0 = 2 ^ 60 := by
    have := hypot_self_zero (d := (2 : ℝ) ^ 60) (by positivity)
    simpa using this
  have hne : ((2 : ℝ) ^ 60) ≠ 0 := by positivity
  simp only [drawDashedLine, sub_zero, round_two_pow_60, round_zero, hh, if_neg hne]
  exact dashLoop_stuck _ _ _ _ fuel 0 true le_rfl (by positivity)

end Binary64

/-- The angle `degrees (atan2 vy vx)` is above `-180`. -/
theorem neg_180_lt_degrees_atan2 (vx vy : ℝ) : -180 < degrees (atan2 vy vx) := by
  have hpi := Real.pi_pos
  have h0 : -Real.pi < atan2 vy vx := by
    unfold atan2
    exact Complex.neg_pi_lt_arg _
  unfold degrees
  rw [← mul_div_assoc, lt_div_iff₀ hpi]
  nlinarith

/-- The angle stored by `computeFromCartesian` lies in `[0, 360)` when `vy ≥ 0`, and when the
angle before normalisation is at most `-2 ^ -44`. -/
theorem normalizeDeg_degrees_atan2 (vx vy : ℝ)
    (h : 0 ≤ vy ∨ degrees (atan2 vy vx) ≤ -(1 / 2 ^ 44)) :
    0 ≤ normalizeDeg (degrees (atan2 vy vx)) ∧ normalizeDeg (degrees (atan2 vy vx)) < 360 := by
  rcases h with h | h
  · exact (normalizeDeg_of_nonneg (degrees_atan2_of_nonneg vx h).1).2
  · have hlo := neg_180_lt_degrees_atan2 vx vy
    apply normalizeDeg_of_rem_le
    rw [jsRem_of_mem_neg (by linarith) (lt_of_le_of_lt h (by norm_num))]
    exact h

/-! ## Properties of the specification -/

/-- Counterexample to C3: with the text `-1` in the magnitude field, `computeFromPolar` stores the
negative magnitude `r = -1`. -/
theorem computeFromPolar_negative_magnitude :
    (computeFromPolar { Sketch.initial with magInput := "-1" }).r = -1 ∧
      ¬ 0 ≤ (computeFromPolar { Sketch.initial with magInput := "-1" }).r := by
  have h : (computeFromPolar { Sketch.initial with magInput := "-1" }).r = -1 := by
    simp only [computeFromPolar, parseFloatSafe_neg_one]
  rw [h]
  exact ⟨rfl, by norm_num⟩

/-- C3, amended: after `computeFromCartesian` the stored magnitude `r` is `≥ 0`; after
`computeFromPolar` the stored `r` is the entered magnitude, unchanged, of either sign.  The
stored angle `thetaDeg` lies in `[0, 360)` after `computeFromPolar` when the entered angle `a`
is finite and either `a ≥ 0` or the remainder `a % 360` is at most `-2 ^ -44`, and after
`computeFromCartesian` when either `y ≥ 0` or the angle `degrees (atan2 y x)` is at most
`-2 ^ -44`. -/
theorem recompute_domain (s : Sketch) :
    0 ≤ (computeFromCartesian s).r ∧
    (computeFromPolar s).r = parseFloatSafe s.magInput 0 ∧
    (|parseFloatSafe s.angInput 0| < 2 ^ 1024 →
      0 ≤ parseFloatSafe s.angInput 0 ∨
        jsRem (parseFloatSafe s.angInput 0) 360 ≤ -(1 / 2 ^ 44) →
      0 ≤ (computeFromPolar s).thetaDeg ∧ (computeFromPolar s).thetaDeg < 360) ∧
    (0 ≤ parseFloatSafe s.yInput 0 ∨
        degrees (atan2 (parseFloatSafe s.yInput 0) (parseFloatSafe s.xInput 0))
          ≤ -(1 / 2 ^ 44) →
      0 ≤ (computeFromCartesian s).thetaDeg ∧ (computeFromCartesian s).thetaDeg < 360) := by
  refine ⟨Real.sqrt_nonneg _, rfl, fun _ h => ?_, fun h => normalizeDeg_degrees_atan2 _ _ h⟩
  rcases h with h | h
  · exact (normalizeDeg_of_nonneg h).2
  · exact normalizeDeg_of_rem_le h

/-- Witness of the amended C3: the state that `setup` builds, with angle text `30` and `y` text
`3`. -/
theorem recompute_domain_witness :
    (|parseFloatSafe Sketch.initial.angInput 0| < 2 ^ 1024 ∧
      0 ≤ parseFloatSafe Sketch.initial.angInput 0 ∧
      0 ≤ parseFloatSafe Sketch.initial.yInput 0) ∧
    (0 ≤ (computeFromPolar Sketch.initial).thetaDeg ∧
      (computeFromPolar Sketch.initial).thetaDeg < 360) ∧
    (0 ≤ (computeFromCartesian Sketch.initial).thetaDeg ∧
      (computeFromCartesian Sketch.initial).thetaDeg < 360) := by
  have ha : parseFloatSafe Sketch.initial.angInput 0 = 30 := parseFloatSafe_thirty 0
  have hy : parseFloatSafe Sketch.initial.yInput 0 = 3 := parseFloatSafe_three 0
  have h0 : |parseFloatSafe Sketch.initial.angInput 0| < 2 ^ 1024 := by
    rw [ha, abs_of_pos (by norm_num)]; norm_num
  have h1 : 0 ≤ parseFloatSafe Sketch.initial.angInput 0 := by rw [ha]; norm_num
  have h3 : 0 ≤ parseFloatSafe Sketch.initial.yInput 0 := by rw [hy]; norm_num
  exact ⟨⟨h0, h1, h3⟩, (recompute_domain Sketch.initial).2.2.1 h0 (Or.inl h1),
    (recompute_domain Sketch.initial).2.2.2 (Or.inl h3)⟩

/-- C4, at the failing input: the double `a = -2 ^ -70` is normalised to exactly 360, outside
the range `[0, 360)`; it is the value of the text `-8.470329472543003e-22`, and with that text in
the angle field `computeFromPolar` stores `thetaDeg = 360`.  For every `a` the result lies in
`[0, 360]`; it lies in `[0, 360)` when `a ≥ 0` and when the remainder `a % 360` is at most
`-2 ^ -44`. -/
theorem normalizeDeg_reaches_360 :
    normalizeDeg (-(1 / 2 ^ 70) : ℝ) = 360 ∧ ¬ normalizeDeg (-(1 / 2 ^ 70) : ℝ) < 360 ∧
    (computeFromPolar { Sketch.initial with angInput := "-8.470329472543003e-22" }).thetaDeg
      = 360 ∧
    (∀ a : ℝ, 0 ≤ normalizeDeg a ∧ normalizeDeg a ≤ 360) ∧
    (∀ a : ℝ, 0 ≤ a ∨ jsRem a 360 ≤ -(1 / 2 ^ 44) →
      0 ≤ normalizeDeg a ∧ normalizeDeg a < 360) := by
  have hp : (computeFromPolar
      { Sketch.initial with angInput := "-8.470329472543003e-22" }).thetaDeg = 360 := by
    simp only [computeFromPolar, parseFloatSafe_tiny_negative, normalizeDeg_tiny_negative]
  rw [normalizeDeg_tiny_negative]
  refine ⟨rfl, lt_irrefl _, hp, normalizeDeg_range, fun a h => ?_⟩
  rcases h with h | h
  · exact (normalizeDeg_of_nonneg h).2
  · exact normalizeDeg_of_rem_le h

/-- C5, at the failing input: for the double `a = -2 ^ -70` the floor-modulo
`a - 360 * ⌊a / 360⌋` is `360 - 2 ^ -70`, and `normalizeDeg a` is 360, a different number.  The
identity holds for every `a ≥ 0`, and at the named values: `normalizeDeg (360 * k) = 0` for
every integer `k`, `normalizeDeg (-30) = 330`, `normalizeDeg 720 = 0`. -/
theorem normalizeDeg_not_floor_mod :
    (-(1 / 2 ^ 70) : ℝ) - 360 * (⌊(-(1 / 2 ^ 70) : ℝ) / 360⌋ : ℝ) = 360 - 1 / 2 ^ 70 ∧
    normalizeDeg (-(1 / 2 ^ 70) : ℝ) = 360 ∧
    normalizeDeg (-(1 / 2 ^ 70) : ℝ)
      ≠ (-(1 / 2 ^ 70) : ℝ) - 360 * (⌊(-(1 / 2 ^ 70) : ℝ) / 360⌋ : ℝ) ∧
    (∀ a : ℝ, 0 ≤ a → normalizeDeg a = a - 360 * (⌊a / 360⌋ : ℝ)) ∧
    (∀ k : ℤ, normalizeDeg (360 * (k : ℝ)) = 0) ∧
    normalizeDeg (-30 : ℝ) = 330 ∧ normalizeDeg (720 : ℝ) = 0 := by
  have hf : ⌊(-(1 / 2 ^ 70) : ℝ) / 360⌋ = -1 := by
    rw [Int.floor_eq_iff]
    norm_num
  have hv : (-(1 / 2 ^ 70) : ℝ) - 360 * (⌊(-(1 / 2 ^ 70) : ℝ) / 360⌋ : ℝ)
      = 360 - 1 / 2 ^ 70 := by
    rw [hf]; norm_num
  refine ⟨hv, normalizeDeg_tiny_negative, ?_, fun a h => (normalizeDeg_of_nonneg h).1,
    normalizeDeg_mul_int, normalizeDeg_neg_30, normalizeDeg_720⟩
  rw [normalizeDeg_tiny_negative, hv]
  norm_num

/-- C6, at the failing input: for the double `a = -2 ^ -70`, `normalizeDeg a` is 360 and
`normalizeDeg (normalizeDeg a)` is 0. -/
theorem normalizeDeg_not_idempotent :
    normalizeDeg (-(1 / 2 ^ 70) : ℝ) = 360 ∧
    normalizeDeg (normalizeDeg (-(1 / 2 ^ 70) : ℝ)) = 0 ∧
    normalizeDeg (normalizeDeg (-(1 / 2 ^ 70) : ℝ)) ≠ normalizeDeg (-(1 / 2 ^ 70) : ℝ) := by
  rw [normalizeDeg_tiny_negative, normalizeDeg_360]
  exact ⟨rfl, rfl, by norm_num⟩

/-- Counterexample to C7: from the state that `setup` leaves (magnitude seed 5, last good
magnitude 5), the text `abc` in the magnitude field makes the recompute store `r = 0`, which is
neither the seed nor the last good value. -/
theorem malformed_magnitude_not_seed :
    parseFloatSafe Sketch.initial.magInput 0 = 5 ∧
    (computeAndUpdate Sketch.initial).r = 5 ∧
    (computeAndUpdate { computeAndUpdate Sketch.initial with magInput := "abc" }).r = 0 ∧
    (computeAndUpdate { computeAndUpdate Sketch.initial with magInput := "abc" }).r ≠ 5 := by
  have hseed : parseFloatSafe Sketch.initial.magInput 0 = 5 := parseFloatSafe_five 0
  have hfirst : (computeAndUpdate Sketch.initial).r = 5 := by
    simp only [computeAndUpdate, Sketch.initial, if_true, computeFromPolar, parseFloatSafe_five]
  have hbad : (computeAndUpdate { computeAndUpdate Sketch.initial with magInput := "abc" }).r
      = 0 := by
    simp only [computeAndUpdate, Sketch.initial, if_true, computeFromPolar, parseFloatSafe_abc]
  refine ⟨hseed, hfirst, hbad, ?_⟩
  rw [hbad]
  norm_num

/-- C7, amended: a field whose text makes `parseFloat` return `NaN` is read as `0`, the default
passed at the four call sites; `computeFromPolar` and `computeFromCartesian` are total. -/
theorem malformed_reads_zero (s : Sketch) :
    (parseFloat (trim s.magInput.data) = .nan → (computeFromPolar s).r = 0) ∧
    (parseFloat (trim s.angInput.data) = .nan → (computeFromPolar s).thetaDeg = 0) ∧
    (parseFloat (trim s.xInput.data) = .nan → (computeFromCartesian s).vx = 0) ∧
    (parseFloat (trim s.yInput.data) = .nan → (computeFromCartesian s).vy = 0) := by
  have hz : normalizeDeg (0 : ℝ) = 0 := normalizeDeg_of_mem le_rfl (by norm_num)
  refine ⟨fun h => ?_, fun h => ?_, fun h => ?_, fun h => ?_⟩
  · simp only [computeFromPolar, parseFloatSafe_of_nan 0 h]
  · simp only [computeFromPolar, parseFloatSafe_of_nan 0 h, hz]
  · simp only [computeFromCartesian, parseFloatSafe_of_nan 0 h]
  · simp only [computeFromCartesian, parseFloatSafe_of_nan 0 h]

/-- Witness of the amended C7: the texts `abc` and the empty text in the four fields, which
`parseFloat` reads as `NaN`, while it reads the text `Infinity` as an infinity. -/
theorem malformed_reads_zero_witness :
    (parseFloat (trim "abc".data) = .nan ∧ parseFloat (trim "".data) = .nan ∧
      parseFloat (trim "Infinity".data) = .infinity false) ∧
    (computeFromPolar { Sketch.initial with
      magInput := "abc", angInput := "", xInput := "", yInput := "abc" }).r = 0 ∧
    (computeFromPolar { Sketch.initial with
      magInput := "abc", angInput := "", xInput := "", yInput := "abc" }).thetaDeg = 0 ∧
    (computeFromCartesian { Sketch.initial with
      magInput := "abc", angInput := "", xInput := "", yInput := "abc" }).vx = 0 ∧
    (computeFromCartesian { Sketch.initial with
      magInput := "abc", angInput := "", xInput := "", yInput := "abc" }).vy = 0 :=
  ⟨⟨by decide, by decide, by decide⟩,
    (malformed_reads_zero { Sketch.initial with
      magInput := "abc", angInput := "", xInput := "", yInput := "abc" }).1 (by decide),
    (malformed_reads_zero { Sketch.initial with
      magInput := "abc", angInput := "", xInput := "", yInput := "abc" }).2.1 (by decide),
    (malformed_reads_zero { Sketch.initial with
      magInput := "abc", angInput := "", xInput := "", yInput := "abc" }).2.2.1 (by decide),
    (malformed_reads_zero { Sketch.initial with
      magInput := "abc", angInput := "", xInput := "", yInput := "abc" }).2.2.2 (by decide)⟩

/-- C8: the zero vector.  When each of the `x` and `y` fields reads as the zero `+0` (a literal
of value zero without a minus sign, or a text that is not a number), `computeFromCartesian`
stores `r = 0` and `thetaDeg = 0`, the value of `normalizeDeg (degrees (atan2 0 0))`. -/
theorem computeFromCartesian_zero (s : Sketch)
    (hx : parseFloat (trim s.xInput.data) = .nan ∨
      ∃ e : ℤ, parseFloat (trim s.xInput.data) = .decimal ⟨false, 0, e⟩)
    (hy : parseFloat (trim s.yInput.data) = .nan ∨
      ∃ e : ℤ, parseFloat (trim s.yInput.data) = .decimal ⟨false, 0, e⟩) :
    (computeFromCartesian s).vx = 0 ∧ (computeFromCartesian s).vy = 0 ∧
    (computeFromCartesian s).r = 0 ∧ (computeFromCartesian s).thetaDeg = 0 ∧
    (computeFromCartesian s).thetaDeg = normalizeDeg (degrees (atan2 0 0)) := by
  have hx0 : parseFloatSafe s.xInput 0 = 0 := by
    rcases hx with h | ⟨e, h⟩
    · exact parseFloatSafe_of_nan 0 h
    · rw [parseFloatSafe_of_decimal 0 h, Decimal.toNumber_zero]; norm_num
  have hy0 : parseFloatSafe s.yInput 0 = 0 := by
    rcases hy with h | ⟨e, h⟩
    · exact parseFloatSafe_of_nan 0 h
    · rw [parseFloatSafe_of_decimal 0 h, Decimal.toNumber_zero]; norm_num
  have h := cartesianToPolar_zero
  have h2 : normalizeDeg (degrees (atan2 0 0)) = 0 := congrArg Prod.snd h
  have hr : (computeFromCartesian s).r = 0 := by
    simp only [computeFromCartesian, hx0, hy0, h]
  have ht : (computeFromCartesian s).thetaDeg = 0 := by
    simp only [computeFromCartesian, hx0, hy0, h]
  exact ⟨hx0, hy0, hr, ht, ht.trans h2.symm⟩

/-- Witness of C8: the text `0` in both Cartesian fields. -/
theorem computeFromCartesian_zero_witness :
    parseFloat (trim "0".data) = .decimal ⟨false, 0, 0⟩ ∧
    (computeFromCartesian { Sketch.initial with xInput := "0", yInput := "0" }).r = 0 ∧
    (computeFromCartesian { Sketch.initial with xInput := "0", yInput := "0" }).thetaDeg = 0 :=
  ⟨by decide,
    (computeFromCartesian_zero { Sketch.initial with xInput := "0", yInput := "0" }
      (Or.inr ⟨0, by decide⟩) (Or.inr ⟨0, by decide⟩)).2.2.1,
    (computeFromCartesian_zero { Sketch.initial with xInput := "0", yInput := "0" }
      (Or.inr ⟨0, by decide⟩) (Or.inr ⟨0, by decide⟩)).2.2.2.1⟩

/-- Counterexample to C9: on doubles, `drawDashedLine(0, 0, 1, 0, 0.1, 0.1)` stops after 11
iterations and draws six segments, the sixth from `0.9999999999999999` to `1`, while
`k * (dash + gap) < d` holds for the five `k < 5` only: the running distance, a sum of ten
rounded steps, is `0.9999999999999999 < 1` where the exact sum is `1`. -/
theorem drawDashedLine_sixth_segment :
    parseFloatSafe "0.1" 0 = 3602879701896397 / 36028797018963968 ∧
    Binary64.drawDashedLine 11 0 0 1 0 (3602879701896397 / 36028797018963968)
        (3602879701896397 / 36028797018963968)
      = some [⟨0, 0, 3602879701896397 / 36028797018963968, 0⟩,
          ⟨3602879701896397 / 18014398509481984, 0, 1351079888211149 / 4503599627370496, 0⟩,
          ⟨3602879701896397 / 9007199254740992, 0, 1 / 2, 0⟩,
          ⟨5404319552844595 / 9007199254740992, 0, 3152519739159347 / 4503599627370496, 0⟩,
          ⟨7205759403792793 / 9007199254740992, 0, 2026619832316723 / 2251799813685248, 0⟩,
          ⟨9007199254740991 / 9007199254740992, 0, 1, 0⟩] ∧
    (∀ k : ℕ, (k : ℝ) * (3602879701896397 / 36028797018963968
      + 3602879701896397 / 36028797018963968) < 1 ↔ k < 5) ∧
    ∀ segs : List (Line ℝ),
      Binary64.drawDashedLine 11 0 0 1 0 (3602879701896397 / 36028797018963968)
        (3602879701896397 / 36028797018963968) = some segs → segs.length = 6 := by
  refine ⟨parseFloatSafe_tenth 0, Binary64.drawDashedLine_tenths_11, fun k => ?_,
    fun segs h => ?_⟩
  · rw [← Binary64.ceil_tenths, Nat.lt_ceil, lt_div_iff₀ (by norm_num)]
  · rw [Binary64.drawDashedLine_tenths_11] at h
    rw [← Option.some.inj h]
    rfl

/-- C9, amended: dash coverage on whole numbers.  For natural numbers `d > 0`, `dash > 0` and
`gap > 0` with `d + dash + gap < 2 ^ 53`, the call `drawDashedLine(0, 0, d, 0, dash, gap)` on
doubles stops and draws, in order, exactly the segments from `(k * (dash + gap), 0)` to
`(min d (k * (dash + gap) + dash), 0)` for the `k = 0, 1, 2, ...` with `k * (dash + gap) < d`. -/
theorem drawDashedLine_coverage (d dash gap : ℕ) (hd : 0 < d) (hdash : 0 < dash) (hgap : 0 < gap)
    (hb : d + dash + gap < 2 ^ 53) (fuel : ℕ)
    (hfuel : 2 * ⌈(d : ℝ) / ((dash : ℝ) + gap)⌉₊ ≤ fuel) :
    Binary64.drawDashedLine fuel 0 0 d 0 dash gap
      = some ((List.range ⌈(d : ℝ) / ((dash : ℝ) + gap)⌉₊).map fun k : ℕ =>
          (⟨k * ((dash : ℝ) + gap), 0, min (d : ℝ) (k * ((dash : ℝ) + gap) + dash), 0⟩
            : Line ℝ)) ∧
    ∀ k : ℕ, k < ⌈(d : ℝ) / ((dash : ℝ) + gap)⌉₊ ↔ (k : ℝ) * ((dash : ℝ) + gap) < d := by
  have hd0 : (0 : ℝ) < d := by exact_mod_cast hd
  have hdash0 : (0 : ℝ) < dash := by exact_mod_cast hdash
  have hgap0 : (0 : ℝ) < gap := by exact_mod_cast hgap
  have hper : (0 : ℝ) < (dash : ℝ) + gap := by linarith
  have hh : hypot ((d : ℝ) - 0) (0 - 0) = d := hypot_self_zero hd0.le
  have hrun := drawDashedLine_eq 0 0 d 0 dash gap (by rw [hh]; exact hd0) hgap0.le hper fuel
    (by rw [hh]; exact hfuel)
  rw [hh] at hrun
  constructor
  · rw [Binary64.drawDashedLine_natCast d dash gap hd hb fuel, hrun]
    congr 1
    apply List.map_congr_left
    intro k _
    have hdd : ((d : ℝ) - 0) / d = 1 := by rw [sub_zero]; exact div_self hd0.ne'
    rw [hdd]
    simp
  · intro k
    rw [Nat.lt_ceil, lt_div_iff₀ hper]

/-- Witness of the amended C9: `drawDashedLine(0, 0, 100, 0, 8, 6)` draws exactly the eight
segments `[0,8], [14,22], [28,36], [42,50], [56,64], [70,78], [84,92], [98,100]`. -/
theorem drawDashedLine_coverage_witness :
    0 < 100 ∧ 0 < 8 ∧ 0 < 6 ∧ 100 + 8 + 6 < 2 ^ 53 ∧
    2 * ⌈((100 : ℕ) : ℝ) / (((8 : ℕ) : ℝ) + (6 : ℕ))⌉₊ ≤ 16 ∧
    Binary64.drawDashedLine 16 0 0 (100 : ℕ) 0 (8 : ℕ) (6 : ℕ)
      = some [⟨0, 0, 8, 0⟩, ⟨14, 0, 22, 0⟩, ⟨28, 0, 36, 0⟩, ⟨42, 0, 50, 0⟩, ⟨56, 0, 64, 0⟩,
          ⟨70, 0, 78, 0⟩, ⟨84, 0, 92, 0⟩, ⟨98, 0, 100, 0⟩] := by
  have hceil : ⌈((100 : ℕ) : ℝ) / (((8 : ℕ) : ℝ) + (6 : ℕ))⌉₊ = 8 := by
    rw [Nat.ceil_eq_iff (by norm_num)]
    norm_num
  have hfuel : 2 * ⌈((100 : ℕ) : ℝ) / (((8 : ℕ) : ℝ) + (6 : ℕ))⌉₊ ≤ 16 := by rw [hceil]
  refine ⟨by norm_num, by norm_num, by norm_num, by norm_num, hfuel, ?_⟩
  rw [(drawDashedLine_coverage 100 8 6 (by norm_num) (by norm_num) (by norm_num) (by norm_num)
    16 hfuel).1, hceil]
  simp only [List.range, List.range.loop, List.map]
  norm_num

/-- C10: clipping.  For distinct endpoints, at distance `d`, and `dash > 0`, `gap ≥ 0`, the call
`drawDashedLine(x1, y1, x2, y2, dash, gap)` stops, and each segment it draws runs between the
points of the line at distances `s` and `e` from `(x1, y1)` with `0 ≤ s < e ≤ d`; its length is
`e - s`, which is exactly `dash` for every segment but possibly the last. -/
theorem drawDashedLine_clipped (x1 y1 x2 y2 dash gap : ℝ) (hne : x1 ≠ x2 ∨ y1 ≠ y2)
    (hdash : 0 < dash) (hgap : 0 ≤ gap) (fuel : ℕ)
    (hfuel : 2 * ⌈hypot (x2 - x1) (y2 - y1) / (dash + gap)⌉₊ ≤ fuel) :
    ∃ segs : List (Line ℝ), drawDashedLine fuel x1 y1 x2 y2 dash gap = some segs ∧
      ∀ (i : ℕ) (hi : i < segs.length), ∃ s e : ℝ,
        0 ≤ s ∧ s < e ∧ e ≤ hypot (x2 - x1) (y2 - y1) ∧
        segs[i] = ⟨x1 + (x2 - x1) / hypot (x2 - x1) (y2 - y1) * s,
          y1 + (y2 - y1) / hypot (x2 - x1) (y2 - y1) * s,
          x1 + (x2 - x1) / hypot (x2 - x1) (y2 - y1) * e,
          y1 + (y2 - y1) / hypot (x2 - x1) (y2 - y1) * e⟩ ∧
        hypot (segs[i].x1 - x1) (segs[i].y1 - y1) = s ∧
        hypot (segs[i].x2 - x1) (segs[i].y2 - y1) = e ∧
        hypot (segs[i].x2 - segs[i].x1) (segs[i].y2 - segs[i].y1) = e - s ∧
        (i + 1 < segs.length → e - s = dash) := by
  have hd : 0 < hypot (x2 - x1) (y2 - y1) := hypot_pos_of_ne hne
  have hper : 0 < dash + gap := by linarith
  refine ⟨_, drawDashedLine_eq x1 y1 x2 y2 dash gap hd hgap hper fuel hfuel, ?_⟩
  intro i hi
  have hin : i < ⌈hypot (x2 - x1) (y2 - y1) / (dash + gap)⌉₊ := by
    simpa using hi
  have hs : (i : ℝ) * (dash + gap) < hypot (x2 - x1) (y2 - y1) := by
    have h := Nat.lt_ceil.1 hin
    rwa [lt_div_iff₀ hper] at h
  have hs0 : 0 ≤ (i : ℝ) * (dash + gap) := by positivity
  have he0 : 0 ≤ min (hypot (x2 - x1) (y2 - y1)) (i * (dash + gap) + dash) :=
    le_min hd.le (by linarith)
  have hse : (i : ℝ) * (dash + gap) < min (hypot (x2 - x1) (y2 - y1)) (i * (dash + gap) + dash) :=
    lt_min hs (by linarith)
  refine ⟨i * (dash + gap), min (hypot (x2 - x1) (y2 - y1)) (i * (dash + gap) + dash),
    hs0, hse, min_le_left _ _, ?_, ?_, ?_, ?_, ?_⟩
  · simp
  · simp only [List.getElem_map, List.getElem_range, add_sub_cancel_left]
    rw [hypot_direction hd, abs_of_nonneg hs0]
  · simp only [List.getElem_map, List.getElem_range, add_sub_cancel_left]
    rw [hypot_direction hd, abs_of_nonneg he0]
  · simp only [List.getElem_map, List.getElem_range]
    have hx : x1 + (x2 - x1) / hypot (x2 - x1) (y2 - y1)
          * min (hypot (x2 - x1) (y2 - y1)) (i * (dash + gap) + dash)
        - (x1 + (x2 - x1) / hypot (x2 - x1) (y2 - y1) * (i * (dash + gap)))
        = (x2 - x1) / hypot (x2 - x1) (y2 - y1)
          * (min (hypot (x2 - x1) (y2 - y1)) (i * (dash + gap) + dash) - i * (dash + gap)) := by
      ring
    have hy : y1 + (y2 - y1) / hypot (x2 - x1) (y2 - y1)
          * min (hypot (x2 - x1) (y2 - y1)) (i * (dash + gap) + dash)
        - (y1 + (y2 - y1) / hypot (x2 - x1) (y2 - y1) * (i * (dash + gap)))
        = (y2 - y1) / hypot (x2 - x1) (y2 - y1)
          * (min (hypot (x2 - x1) (y2 - y1)) (i * (dash + gap) + dash) - i * (dash + gap)) := by
      ring
    rw [hx, hy, hypot_direction hd, abs_of_nonneg (by linarith)]
  · intro hnext
    have hin2 : i + 1 < ⌈hypot (x2 - x1) (y2 - y1) / (dash + gap)⌉₊ := by
      simpa using hnext
    have h := Nat.lt_ceil.1 hin2
    rw [lt_div_iff₀ hper] at h
    push_cast at h
    rw [min_eq_right (by linarith)]
    ring

/-- Witness of C10: the dashed line from `(0, 0)` to `(3, 4)` with dash 2 and gap 1. -/
theorem drawDashedLine_clipped_witness :
    ((0 : ℝ) ≠ 3 ∨ (0 : ℝ) ≠ 4) ∧ (0 : ℝ) < 2 ∧ (0 : ℝ) ≤ 1 ∧
    2 * ⌈hypot (3 - 0) (4 - 0) / (2 + 1)⌉₊ ≤ 4 ∧
    ∃ segs : List (Line ℝ), drawDashedLine 4 0 0 3 4 2 1 = some segs ∧
      ∀ (i : ℕ) (hi : i < segs.length), ∃ s e : ℝ,
        0 ≤ s ∧ s < e ∧ e ≤ hypot (3 - 0) (4 - 0) ∧
        segs[i] = ⟨0 + (3 - 0) / hypot (3 - 0) (4 - 0) * s,
          0 + (4 - 0) / hypot (3 - 0) (4 - 0) * s,
          0 + (3 - 0) / hypot (3 - 0) (4 - 0) * e,
          0 + (4 - 0) / hypot (3 - 0) (4 - 0) * e⟩ ∧
        hypot (segs[i].x1 - 0) (segs[i].y1 - 0) = s ∧
        hypot (segs[i].x2 - 0) (segs[i].y2 - 0) = e ∧
        hypot (segs[i].x2 - segs[i].x1) (segs[i].y2 - segs[i].y1) = e - s ∧
        (i + 1 < segs.length → e - s = 2) := by
  have hh : hypot (3 - 0) (4 - 0) = 5 := by
    unfold hypot
    rw [show ((3 : ℝ) - 0) * (3 - 0) + (4 - 0) * (4 - 0) = 5 ^ 2 by norm_num]
    exact Real.sqrt_sq (by norm_num)
  have hfuel : 2 * ⌈hypot (3 - 0) (4 - 0) / (2 + 1)⌉₊ ≤ 4 := by
    have hceil : ⌈hypot (3 - 0) (4 - 0) / (2 + 1)⌉₊ = 2 := by
      rw [hh, Nat.ceil_eq_iff (by norm_num)]
      norm_num
    rw [hceil]
  exact ⟨Or.inl (by norm_num), by norm_num, by norm_num, hfuel,
    drawDashedLine_clipped 0 0 3 4 2 1 (Or.inl (by norm_num)) (by norm_num) (by norm_num) 4 hfuel⟩

/-- C11: for distinct endpoints, `dash > 0` and `gap ≥ 0`, the call of `drawDashedLine` stops
and draws a non-empty sequence whose first segment starts exactly at `(x1, y1)` and has the
positive length `min d dash`: the sequence starts with a drawn dash, never with a gap. -/
theorem drawDashedLine_starts_with_dash (x1 y1 x2 y2 dash gap : ℝ) (hne : x1 ≠ x2 ∨ y1 ≠ y2)
    (hdash : 0 < dash) (hgap : 0 ≤ gap) (fuel : ℕ)
    (hfuel : 2 * ⌈hypot (x2 - x1) (y2 - y1) / (dash + gap)⌉₊ ≤ fuel) :
    ∃ (first : Line ℝ) (rest : List (Line ℝ)),
      drawDashedLine fuel x1 y1 x2 y2 dash gap = some (first :: rest) ∧
      first.x1 = x1 ∧ first.y1 = y1 ∧
      first.x2 = x1 + (x2 - x1) / hypot (x2 - x1) (y2 - y1)
        * min (hypot (x2 - x1) (y2 - y1)) dash ∧
      first.y2 = y1 + (y2 - y1) / hypot (x2 - x1) (y2 - y1)
        * min (hypot (x2 - x1) (y2 - y1)) dash ∧
      hypot (first.x2 - first.x1) (first.y2 - first.y1) = min (hypot (x2 - x1) (y2 - y1)) dash ∧
      0 < min (hypot (x2 - x1) (y2 - y1)) dash := by
  have hd : 0 < hypot (x2 - x1) (y2 - y1) := hypot_pos_of_ne hne
  have hper : 0 < dash + gap := by linarith
  have hrun := drawDashedLine_eq x1 y1 x2 y2 dash gap hd hgap hper fuel hfuel
  have hn : 0 < ⌈hypot (x2 - x1) (y2 - y1) / (dash + gap)⌉₊ := Nat.ceil_pos.2 (div_pos hd hper)
  obtain ⟨n, hn2⟩ : ∃ n, ⌈hypot (x2 - x1) (y2 - y1) / (dash + gap)⌉₊ = n + 1 :=
    ⟨_, (Nat.succ_pred_eq_of_pos hn).symm⟩
  rw [hn2, List.range_succ_eq_map, List.map_cons] at hrun
  have hmin : 0 < min (hypot (x2 - x1) (y2 - y1)) dash := lt_min hd hdash
  refine ⟨_, _, hrun, by simp, by simp, by simp, by simp, ?_, hmin⟩
  have hx : x1 + (x2 - x1) / hypot (x2 - x1) (y2 - y1)
        * min (hypot (x2 - x1) (y2 - y1)) (((0 : ℕ) : ℝ) * (dash + gap) + dash)
      - (x1 + (x2 - x1) / hypot (x2 - x1) (y2 - y1) * (((0 : ℕ) : ℝ) * (dash + gap)))
      = (x2 - x1) / hypot (x2 - x1) (y2 - y1) * min (hypot (x2 - x1) (y2 - y1)) dash := by
    simp
  have hy : y1 + (y2 - y1) / hypot (x2 - x1) (y2 - y1)
        * min (hypot (x2 - x1) (y2 - y1)) (((0 : ℕ) : ℝ) * (dash + gap) + dash)
      - (y1 + (y2 - y1) / hypot (x2 - x1) (y2 - y1) * (((0 : ℕ) : ℝ) * (dash + gap)))
      = (y2 - y1) / hypot (x2 - x1) (y2 - y1) * min (hypot (x2 - x1) (y2 - y1)) dash := by
    simp
  show hypot (_ - _) (_ - _) = _
  rw [hx, hy, hypot_direction hd, abs_of_pos hmin]

/-- Witness of C11: the dashed line from `(1, 1)` to `(1, 4)` with dash 8 and gap 6. -/
theorem drawDashedLine_starts_with_dash_witness :
    ((1 : ℝ) ≠ 1 ∨ (1 : ℝ) ≠ 4) ∧ (0 : ℝ) < 8 ∧ (0 : ℝ) ≤ 6 ∧
    ∃ (first : Line ℝ) (rest : List (Line ℝ)),
      drawDashedLine (2 * ⌈hypot (1 - 1) (4 - 1) / (8 + 6)⌉₊) 1 1 1 4 8 6
        = some (first :: rest) ∧ first.x1 = 1 ∧ first.y1 = 1 := by
  obtain ⟨first, rest, hrun, hx, hy, -⟩ := drawDashedLine_starts_with_dash 1 1 1 4 8 6
    (Or.inr (by norm_num)) (by norm_num) (by norm_num)
    (2 * ⌈hypot (1 - 1) (4 - 1) / (8 + 6)⌉₊) le_rfl
  exact ⟨Or.inr (by norm_num), by norm_num, by norm_num, first, rest, hrun, hx, hy⟩

/-- C12: a dashed line of length zero.  For every point `(x, y)`, every `dash` and `gap` and any
bound on the iterations, `drawDashedLine(x, y, x, y, dash, gap)` returns without entering its
loop and draws nothing. -/
theorem drawDashedLine_zero_length (x y dash gap : ℝ) (fuel : ℕ) :
    hypot (x - x) (y - y) = 0 ∧ drawDashedLine fuel x y x y dash gap = some [] := by
  have h : hypot (x - x) (y - y) = 0 := by
    rw [sub_self, sub_self]; exact hypot_zero_zero
  exact ⟨h, by simp [drawDashedLine, hypot_zero_zero]⟩

/-- C13, at the failing inputs: on doubles the loop of `drawDashedLine(0, 0, 2 ^ 60, 0, 8, 6)`
never stops, whatever the number of iterations allowed: from `2 ^ 57` on, `pos + step` is rounded
back to `pos`.  On `drawDashedLine(0, 0, 1, 0, 0.1, 0.1)` the bound
`2 * ⌈d / (dash + gap)⌉ = 10` is exceeded: the loop has not stopped after 10 iterations and
stops after 11. -/
theorem drawDashedLine_not_total :
    (∀ fuel : ℕ, Binary64.drawDashedLine fuel 0 0 (2 ^ 60) 0 8 6 = none) ∧
    2 * ⌈(1 : ℝ) / (3602879701896397 / 36028797018963968
      + 3602879701896397 / 36028797018963968)⌉₊ = 10 ∧
    Binary64.drawDashedLine 10 0 0 1 0 (3602879701896397 / 36028797018963968)
      (3602879701896397 / 36028797018963968) = none ∧
    (Binary64.drawDashedLine 11 0 0 1 0 (3602879701896397 / 36028797018963968)
      (3602879701896397 / 36028797018963968)).isSome = true := by
  refine ⟨Binary64.drawDashedLine_stuck, ?_, Binary64.drawDashedLine_tenths_10, ?_⟩
  · rw [Binary64.ceil_tenths]
  · rw [Binary64.drawDashedLine_tenths_11]
    rfl

/-- C14: arrowhead edges.  `drawArrow` draws the shaft and two edges; each edge starts at the tip
`(x2, y2)`, has Euclidean length exactly 12, and is directed at the angle `a + 25°`, respectively
`a - 25°`, where `a = atan2 (y1 - y2) (x1 - x2)`. -/
theorem drawArrow_edge_length (x1 y1 x2 y2 : ℝ) :
    ∃ e1 e2 : Line ℝ, drawArrow x1 y1 x2 y2 = [⟨x1, y1, x2, y2⟩, e1, e2] ∧
      (e1.x1 = x2 ∧ e1.y1 = y2) ∧ (e2.x1 = x2 ∧ e2.y1 = y2) ∧
      hypot (e1.x2 - e1.x1) (e1.y2 - e1.y1) = 12 ∧
      hypot (e2.x2 - e2.x1) (e2.y2 - e2.y1) = 12 ∧
      e1.x2 - e1.x1 = 12 * Real.cos (atan2 (y1 - y2) (x1 - x2) + 25 * (Real.pi / 180)) ∧
      e1.y2 - e1.y1 = 12 * Real.sin (atan2 (y1 - y2) (x1 - x2) + 25 * (Real.pi / 180)) ∧
      e2.x2 - e2.x1 = 12 * Real.cos (atan2 (y1 - y2) (x1 - x2) - 25 * (Real.pi / 180)) ∧
      e2.y2 - e2.y1 = 12 * Real.sin (atan2 (y1 - y2) (x1 - x2) - 25 * (Real.pi / 180)) := by
  refine ⟨_, _, rfl, ⟨rfl, rfl⟩, ⟨rfl, rfl⟩, hypot_edge _ _ _, hypot_edge _ _ _, ?_, ?_, ?_, ?_⟩
  all_goals simp [radians]

/-- C15: arrowhead symmetry.  The far endpoint of the second edge is the reflection of the far
endpoint of the first edge in the line through the tip `(x2, y2)` with direction angle
`a = atan2 (y1 - y2) (x1 - x2)`, and conversely; this line passes through the tail `(x1, y1)`,
which lies at the distance `hypot (x1 - x2) (y1 - y2)` from the tip in the direction `a`. -/
theorem drawArrow_edges_mirror (x1 y1 x2 y2 : ℝ) :
    ∃ e1 e2 : Line ℝ, drawArrow x1 y1 x2 y2 = [⟨x1, y1, x2, y2⟩, e1, e2] ∧
      e2.x2 = x2 + 2 * ((e1.x2 - x2) * Real.cos (atan2 (y1 - y2) (x1 - x2))
          + (e1.y2 - y2) * Real.sin (atan2 (y1 - y2) (x1 - x2)))
          * Real.cos (atan2 (y1 - y2) (x1 - x2)) - (e1.x2 - x2) ∧
      e2.y2 = y2 + 2 * ((e1.x2 - x2) * Real.cos (atan2 (y1 - y2) (x1 - x2))
          + (e1.y2 - y2) * Real.sin (atan2 (y1 - y2) (x1 - x2)))
          * Real.sin (atan2 (y1 - y2) (x1 - x2)) - (e1.y2 - y2) ∧
      e1.x2 = x2 + 2 * ((e2.x2 - x2) * Real.cos (atan2 (y1 - y2) (x1 - x2))
          + (e2.y2 - y2) * Real.sin (atan2 (y1 - y2) (x1 - x2)))
          * Real.cos (atan2 (y1 - y2) (x1 - x2)) - (e2.x2 - x2) ∧
      e1.y2 = y2 + 2 * ((e2.x2 - x2) * Real.cos (atan2 (y1 - y2) (x1 - x2))
          + (e2.y2 - y2) * Real.sin (atan2 (y1 - y2) (x1 - x2)))
          * Real.sin (atan2 (y1 - y2) (x1 - x2)) - (e2.y2 - y2) ∧
      x1 = x2 + hypot (x1 - x2) (y1 - y2) * Real.cos (atan2 (y1 - y2) (x1 - x2)) ∧
      y1 = y2 + hypot (x1 - x2) (y1 - y2) * Real.sin (atan2 (y1 - y2) (x1 - x2)) := by
  have hc := cos_sub_eq_reflect (atan2 (y1 - y2) (x1 - x2)) (radians 25)
  have hs := sin_sub_eq_reflect (atan2 (y1 - y2) (x1 - x2)) (radians 25)
  have hc2 := cos_sub_eq_reflect (atan2 (y1 - y2) (x1 - x2)) (-radians 25)
  have hs2 := sin_sub_eq_reflect (atan2 (y1 - y2) (x1 - x2)) (-radians 25)
  rw [sub_neg_eq_add, ← sub_eq_add_neg] at hc2 hs2
  refine ⟨_, _, rfl, ?_, ?_, ?_, ?_, ?_, ?_⟩
  · show x2 + 12 * Real.cos (_ - _) = _
    rw [hc]; ring
  · show y2 + 12 * Real.sin (_ - _) = _
    rw [hs]; ring
  · show x2 + 12 * Real.cos (_ + _) = _
    rw [hc2]; ring
  · show y2 + 12 * Real.sin (_ + _) = _
    rw [hs2]; ring
  · rw [hypot_mul_cos_atan2]; ring
  · rw [hypot_mul_sin_atan2]; ring

/-- C16: grid lines step outward from the origin.  For a scale `S > 0`, `drawGraph` first draws
the vertical lines at `x = ox + k * S` for `k = 0, 1, 2, ...` while `ox + k * S ≤ right`, then
those at `x = ox - k * S` while `ox - k * S ≥ left`, then the horizontal lines at
`y = oy + k * S` while `≤ bottom` and at `y = oy - k * S` while `≥ top`; every position drawn
lies inside the bounds, a whole number of steps `S` away from the origin. -/
theorem drawGraph_grid (width height S : ℝ) (s : Sketch) (b : Bounds)
    (hb : b = bounds width height) (hS : 0 < S) :
    (∃ fuel0 : ℕ, ∀ fuel : ℕ, fuel0 ≤ fuel → ∃ rest : List (Line ℝ),
      drawGraph fuel width height S s
        = some (((List.range ⌊(b.right - b.ox) / S + 1⌋₊).map fun k : ℕ =>
              (⟨b.ox + k * S, b.top, b.ox + k * S, b.bottom⟩ : Line ℝ))
          ++ ((List.range ⌊(b.ox - b.left) / S + 1⌋₊).map fun k : ℕ =>
              (⟨b.ox - k * S, b.top, b.ox - k * S, b.bottom⟩ : Line ℝ))
          ++ ((List.range ⌊(b.bottom - b.oy) / S + 1⌋₊).map fun k : ℕ =>
              (⟨b.left, b.oy + k * S, b.right, b.oy + k * S⟩ : Line ℝ))
          ++ ((List.range ⌊(b.oy - b.top) / S + 1⌋₊).map fun k : ℕ =>
              (⟨b.left, b.oy - k * S, b.right, b.oy - k * S⟩ : Line ℝ))
          ++ rest)) ∧
    (∀ k : ℕ, k < ⌊(b.right - b.ox) / S + 1⌋₊ ↔ b.ox + k * S ≤ b.right) ∧
    (∀ k : ℕ, k < ⌊(b.ox - b.left) / S + 1⌋₊ ↔ b.left ≤ b.ox - k * S) ∧
    (∀ k : ℕ, k < ⌊(b.bottom - b.oy) / S + 1⌋₊ ↔ b.oy + k * S ≤ b.bottom) ∧
    (∀ k : ℕ, k < ⌊(b.oy - b.top) / S + 1⌋₊ ↔ b.top ≤ b.oy - k * S) ∧
    (∀ k : ℕ, k < ⌊(b.right - b.ox) / S + 1⌋₊ →
      b.left ≤ b.ox + k * S ∧ b.ox + k * S ≤ b.right) ∧
    (∀ k : ℕ, k < ⌊(b.ox - b.left) / S + 1⌋₊ →
      b.left ≤ b.ox - k * S ∧ b.ox - k * S ≤ b.right) ∧
    (∀ k : ℕ, k < ⌊(b.bottom - b.oy) / S + 1⌋₊ →
      b.top ≤ b.oy + k * S ∧ b.oy + k * S ≤ b.bottom) ∧
    (∀ k : ℕ, k < ⌊(b.oy - b.top) / S + 1⌋₊ →
      b.top ≤ b.oy - k * S ∧ b.oy - k * S ≤ b.bottom) := by
  have hR : ∀ k : ℕ, k < ⌊(b.right - b.ox) / S + 1⌋₊ ↔ b.ox + k * S ≤ b.right := fun k => by
    rw [lt_floor_steps hS]; constructor <;> intro h <;> linarith
  have hL : ∀ k : ℕ, k < ⌊(b.ox - b.left) / S + 1⌋₊ ↔ b.left ≤ b.ox - k * S := fun k => by
    rw [lt_floor_steps hS]; constructor <;> intro h <;> linarith
  have hD : ∀ k : ℕ, k < ⌊(b.bottom - b.oy) / S + 1⌋₊ ↔ b.oy + k * S ≤ b.bottom := fun k => by
    rw [lt_floor_steps hS]; constructor <;> intro h <;> linarith
  have hU : ∀ k : ℕ, k < ⌊(b.oy - b.top) / S + 1⌋₊ ↔ b.top ≤ b.oy - k * S := fun k => by
    rw [lt_floor_steps hS]; constructor <;> intro h <;> linarith
  have hox : b.ox = b.left + (b.right - b.left) / 2 := by subst hb; rfl
  have hoy : b.oy = b.top + (b.bottom - b.top) / 2 := by subst hb; rfl
  have hk : ∀ k : ℕ, 0 ≤ (k : ℝ) * S := fun k => by positivity
  refine ⟨?_, hR, hL, hD, hU, ?_, ?_, ?_, ?_⟩
  · obtain ⟨fuel0, h⟩ := drawGraph_grid_eq width height S s b hb hS
    refine ⟨fuel0, fun fuel hfuel => ?_⟩
    obtain ⟨rest, -, -, -, -, hrun⟩ := h fuel hfuel
    exact ⟨rest, hrun⟩
  · intro k hlt
    have h1 := (hR k).1 hlt
    have h2 := hk k
    constructor <;> linarith
  · intro k hlt
    have h1 := (hL k).1 hlt
    have h2 := hk k
    constructor <;> linarith
  · intro k hlt
    have h1 := (hD k).1 hlt
    have h2 := hk k
    constructor <;> linarith
  · intro k hlt
    have h1 := (hU k).1 hlt
    have h2 := hk k
    constructor <;> linarith

/-- Witness of C16: on the canvas 200 × 400 at scale 50 the vertical lines are drawn at
`x = 100, 150` and then at `x = 100, 50`, the horizontal lines at `y = 285, 335` and then at
`y = 285, 235`; the borders `x = 20, 180` and `y = 190, 380` are not hit. -/
theorem drawGraph_grid_witness :
    bounds 200 400 = bounds 200 400 ∧ (0 : ℝ) < 50 ∧
    ∃ fuel0 : ℕ, ∀ fuel : ℕ, fuel0 ≤ fuel → ∃ rest : List (Line ℝ),
      drawGraph fuel 200 400 50 Sketch.initial
        = some ([⟨100, 190, 100, 380⟩, ⟨150, 190, 150, 380⟩,
            ⟨100, 190, 100, 380⟩, ⟨50, 190, 50, 380⟩,
            ⟨20, 285, 180, 285⟩, ⟨20, 335, 180, 335⟩,
            ⟨20, 285, 180, 285⟩, ⟨20, 235, 180, 235⟩] ++ rest) := by
  refine ⟨rfl, by norm_num, ?_⟩
  obtain ⟨fuel0, h⟩ :=
    (drawGraph_grid 200 400 50 Sketch.initial (bounds 200 400) rfl (by norm_num)).1
  refine ⟨fuel0, fun fuel hfuel => ?_⟩
  obtain ⟨rest, hrun⟩ := h fuel hfuel
  refine ⟨rest, ?_⟩
  have hR : ⌊((bounds 200 400).right - (bounds 200 400).ox) / 50 + 1⌋₊ = 2 := by
    rw [Nat.floor_eq_iff (by norm_num [bounds])]
    norm_num [bounds]
  have hL : ⌊((bounds 200 400).ox - (bounds 200 400).left) / 50 + 1⌋₊ = 2 := by
    rw [Nat.floor_eq_iff (by norm_num [bounds])]
    norm_num [bounds]
  have hD : ⌊((bounds 200 400).bottom - (bounds 200 400).oy) / 50 + 1⌋₊ = 2 := by
    rw [Nat.floor_eq_iff (by norm_num [bounds])]
    norm_num [bounds]
  have hU : ⌊((bounds 200 400).oy - (bounds 200 400).top) / 50 + 1⌋₊ = 2 := by
    rw [Nat.floor_eq_iff (by norm_num [bounds])]
    norm_num [bounds]
  rw [hrun, hR, hL, hD, hU]
  simp only [List.range, List.range.loop, List.map, bounds]
  norm_num

/-- C17: scale proportionality with the Y flip.  The origin pixel is
`(ox, oy) = (left + w / 2, top + h / 2)`, computed from the canvas size alone; the tip pixel is
`(ox + vx * S, oy - vy * S)`, and `drawGraph` draws the vector from the origin to it; so the
offset of the tip from the origin at scale 120 is exactly 12 times its offset at scale 10. -/
theorem drawGraph_scale (width height S : ℝ) (s : Sketch) (b : Bounds)
    (hb : b = bounds width height) :
    (b.ox = b.left + b.w / 2 ∧ b.oy = b.top + b.h / 2) ∧
    (b.left = 20 ∧ b.top = 190 ∧ b.w = width - 20 - 20 ∧ b.h = height - 20 - 190) ∧
    tip b S s = (b.ox + s.vx * S, b.oy - s.vy * S) ∧
    (0 < S → ∃ fuel0 : ℕ, ∀ fuel : ℕ, fuel0 ≤ fuel → ∃ out : List (Line ℝ),
      drawGraph fuel width height S s = some out ∧
      (⟨b.ox, b.oy, b.ox + s.vx * S, b.oy - s.vy * S⟩ : Line ℝ) ∈ out) ∧
    (tip b 120 s).1 - b.ox = 12 * ((tip b 10 s).1 - b.ox) ∧
    (tip b 120 s).2 - b.oy = 12 * ((tip b 10 s).2 - b.oy) := by
  subst hb
  refine ⟨⟨rfl, rfl⟩, ⟨rfl, rfl, rfl, rfl⟩, rfl, ?_, ?_, ?_⟩
  · intro hS
    obtain ⟨fuel0, h⟩ := drawGraph_eq width height S s hS
    refine ⟨fuel0, fun fuel hfuel => ?_⟩
    obtain ⟨d1, d2, -, -, h1, h2, h3, h4, hrun⟩ := h fuel hfuel
    refine ⟨_, hrun _ _ _ _ h1 h2 h3 h4, ?_⟩
    simp [tip]
  · simp only [tip]; ring
  · simp only [tip]; ring

/-- Witness of C17: the canvas 900 × 560 at scale 40, with the vector of the initial state. -/
theorem drawGraph_scale_witness :
    bounds 900 560 = bounds 900 560 ∧ (0 : ℝ) < 40 ∧
    ∃ fuel0 : ℕ, ∀ fuel : ℕ, fuel0 ≤ fuel → ∃ out : List (Line ℝ),
      drawGraph fuel 900 560 40 (computeFromPolar Sketch.initial) = some out ∧
      (⟨(bounds 900 560).ox, (bounds 900 560).oy,
        (bounds 900 560).ox + (computeFromPolar Sketch.initial).vx * 40,
        (bounds 900 560).oy - (computeFromPolar Sketch.initial).vy * 40⟩ : Line ℝ) ∈ out :=
  ⟨rfl, by norm_num,
    (drawGraph_scale 900 560 40 (computeFromPolar Sketch.initial) (bounds 900 560) rfl).2.2.2.1
      (by norm_num)⟩

/-- C18: a negative magnitude is not corrected.  The pair computed by the formulas of
`computeFromPolar` from `(-m, a)` is the negation of the pair computed from `(m, a)` and equals
the pair computed from `(m, a + 180)`; `computeFromPolar` stores it, together with `r = -m` and
the normalised nominal angle. -/
theorem computeFromPolar_negative (m a : ℝ) (hm : 0 < m) :
    polarToCartesian (-m) a = (-(polarToCartesian m a).1, -(polarToCartesian m a).2) ∧
    polarToCartesian (-m) a = polarToCartesian m (a + 180) ∧
    ∀ s : Sketch, parseFloatSafe s.magInput 0 = -m → parseFloatSafe s.angInput 0 = a →
      (computeFromPolar s).vx = -(polarToCartesian m a).1 ∧
      (computeFromPolar s).vy = -(polarToCartesian m a).2 ∧
      (computeFromPolar s).r = -m ∧ (computeFromPolar s).r < 0 ∧
      (computeFromPolar s).thetaDeg = normalizeDeg a := by
  have hneg : polarToCartesian (-m) a
      = (-(polarToCartesian m a).1, -(polarToCartesian m a).2) := by
    simp [polarToCartesian]
  have hrad : radians (a + 180) = radians a + Real.pi := by
    unfold radians; ring
  refine ⟨hneg, ?_, ?_⟩
  · simp only [polarToCartesian, hrad, Real.cos_add_pi, Real.sin_add_pi]
    rw [Prod.mk.injEq]
    constructor <;> ring
  · intro s h1 h2
    have hvx : (computeFromPolar s).vx = (polarToCartesian (-m) a).1 := by
      simp only [computeFromPolar, h1, h2]
    have hvy : (computeFromPolar s).vy = (polarToCartesian (-m) a).2 := by
      simp only [computeFromPolar, h1, h2]
    have hr : (computeFromPolar s).r = -m := by
      simp only [computeFromPolar, h1]
    have ht : (computeFromPolar s).thetaDeg = normalizeDeg a := by
      simp only [computeFromPolar, h2]
    rw [hneg] at hvx hvy
    exact ⟨hvx, hvy, hr, by rw [hr]; linarith, ht⟩

/-- Witness of C18: magnitude text `-5` and angle text `30`. -/
theorem computeFromPolar_negative_witness :
    (0 : ℝ) < 5 ∧
    polarToCartesian (-5) 30 = (-(polarToCartesian 5 30).1, -(polarToCartesian 5 30).2) ∧
    polarToCartesian (-5) 30 = polarToCartesian 5 (30 + 180) ∧
    (computeFromPolar { Sketch.initial with magInput := "-5" }).vx = -(polarToCartesian 5 30).1 ∧
    (computeFromPolar { Sketch.initial with magInput := "-5" }).vy = -(polarToCartesian 5 30).2 ∧
    (computeFromPolar { Sketch.initial with magInput := "-5" }).r = -5 :=
  ⟨by norm_num, (computeFromPolar_negative 5 30 (by norm_num)).1,
    (computeFromPolar_negative 5 30 (by norm_num)).2.1,
    ((computeFromPolar_negative 5 30 (by norm_num)).2.2 { Sketch.initial with magInput := "-5" }
      (parseFloatSafe_neg_five 0) (parseFloatSafe_thirty 0)).1,
    ((computeFromPolar_negative 5 30 (by norm_num)).2.2 { Sketch.initial with magInput := "-5" }
      (parseFloatSafe_neg_five 0) (parseFloatSafe_thirty 0)).2.1,
    ((computeFromPolar_negative 5 30 (by norm_num)).2.2 { Sketch.initial with magInput := "-5" }
      (parseFloatSafe_neg_five 0) (parseFloatSafe_thirty 0)).2.2.1⟩

/-- C19: the arrowhead opens backward.  For distinct tail `(x1, y1)` and tip `(x2, y2)`, the dot
product of each arrowhead edge vector with the vector `(x1 - x2, y1 - y2)` from tip to tail is
`12 * cos 25° * dist`, where 12 is the length of the edge and `dist` the distance from tail to
tip: the edge makes the angle 25° with the direction from tip to tail, and the product is
positive. -/
theorem drawArrow_opens_backward (x1 y1 x2 y2 : ℝ) (hne : x1 ≠ x2 ∨ y1 ≠ y2) :
    ∃ e1 e2 : Line ℝ, drawArrow x1 y1 x2 y2 = [⟨x1, y1, x2, y2⟩, e1, e2] ∧
      (e1.x2 - e1.x1) * (x1 - x2) + (e1.y2 - e1.y1) * (y1 - y2)
        = 12 * Real.cos (25 * (Real.pi / 180)) * hypot (x1 - x2) (y1 - y2) ∧
      (e2.x2 - e2.x1) * (x1 - x2) + (e2.y2 - e2.y1) * (y1 - y2)
        = 12 * Real.cos (25 * (Real.pi / 180)) * hypot (x1 - x2) (y1 - y2) ∧
      hypot (e1.x2 - e1.x1) (e1.y2 - e1.y1) = 12 ∧
      hypot (e2.x2 - e2.x1) (e2.y2 - e2.y1) = 12 ∧
      0 < 12 * Real.cos (25 * (Real.pi / 180)) * hypot (x1 - x2) (y1 - y2) := by
  have hd : 0 < hypot (x1 - x2) (y1 - y2) :=
    hypot_pos_of_ne (hne.imp Ne.symm Ne.symm)
  have hcos : 0 < Real.cos (25 * (Real.pi / 180)) := cos_radians_25_pos
  have hx := hypot_mul_cos_atan2 (x1 - x2) (y1 - y2)
  have hy := hypot_mul_sin_atan2 (x1 - x2) (y1 - y2)
  have hsq := Real.sin_sq_add_cos_sq (atan2 (y1 - y2) (x1 - x2))
  refine ⟨_, _, rfl, ?_, ?_, hypot_edge _ _ _, hypot_edge _ _ _, by positivity⟩
  · show (x2 + 12 * Real.cos (_ + radians 25) - x2) * _
      + (y2 + 12 * Real.sin (_ + radians 25) - y2) * _ = _
    rw [Real.cos_add, Real.sin_add]
    unfold radians
    linear_combination
      (-(12 * (Real.cos (atan2 (y1 - y2) (x1 - x2)) * Real.cos (25 * (Real.pi / 180))
        - Real.sin (atan2 (y1 - y2) (x1 - x2)) * Real.sin (25 * (Real.pi / 180))))) * hx
      + (-(12 * (Real.sin (atan2 (y1 - y2) (x1 - x2)) * Real.cos (25 * (Real.pi / 180))
        + Real.cos (atan2 (y1 - y2) (x1 - x2)) * Real.sin (25 * (Real.pi / 180))))) * hy
      + (12 * Real.cos (25 * (Real.pi / 180)) * hypot (x1 - x2) (y1 - y2)) * hsq
  · show (x2 + 12 * Real.cos (_ - radians 25) - x2) * _
      + (y2 + 12 * Real.sin (_ - radians 25) - y2) * _ = _
    rw [Real.cos_sub, Real.sin_sub]
    unfold radians
    linear_combination
      (-(12 * (Real.cos (atan2 (y1 - y2) (x1 - x2)) * Real.cos (25 * (Real.pi / 180))
        + Real.sin (atan2 (y1 - y2) (x1 - x2)) * Real.sin (25 * (Real.pi / 180))))) * hx
      + (-(12 * (Real.sin (atan2 (y1 - y2) (x1 - x2)) * Real.cos (25 * (Real.pi / 180))
        - Real.cos (atan2 (y1 - y2) (x1 - x2)) * Real.sin (25 * (Real.pi / 180))))) * hy
      + (12 * Real.cos (25 * (Real.pi / 180)) * hypot (x1 - x2) (y1 - y2)) * hsq

/-- Witness of C19: the arrow from the tail `(0, 0)` to the tip `(3, 4)`. -/
theorem drawArrow_opens_backward_witness :
    ((0 : ℝ) ≠ 3 ∨ (0 : ℝ) ≠ 4) ∧
    ∃ e1 e2 : Line ℝ, drawArrow 0 0 3 4 = [⟨0, 0, 3, 4⟩, e1, e2] ∧
      (e1.x2 - e1.x1) * (0 - 3) + (e1.y2 - e1.y1) * (0 - 4)
        = 12 * Real.cos (25 * (Real.pi / 180)) * hypot (0 - 3) (0 - 4) ∧
      (e2.x2 - e2.x1) * (0 - 3) + (e2.y2 - e2.y1) * (0 - 4)
        = 12 * Real.cos (25 * (Real.pi / 180)) * hypot (0 - 3) (0 - 4) ∧
      hypot (e1.x2 - e1.x1) (e1.y2 - e1.y1) = 12 ∧
      hypot (e2.x2 - e2.x1) (e2.y2 - e2.y1) = 12 ∧
      0 < 12 * Real.cos (25 * (Real.pi / 180)) * hypot (0 - 3) (0 - 4) :=
  ⟨Or.inl (by norm_num), drawArrow_opens_backward 0 0 3 4 (Or.inl (by norm_num))⟩

/-- C20: grid symmetry about the origin.  For a scale `S > 0` the rightward and the leftward
loop of `drawGraph` draw the same number of vertical lines, a vertical line at `x` is drawn by
one loop exactly when the line at `2 * ox - x` is drawn by the other, so the drawn positions are
symmetric about `ox`; likewise for the horizontal lines about `oy`; and, on bounds with
`left ≤ right` (respectively `top ≤ bottom`), the line through the origin is drawn twice, first
by each of the two loops. -/
theorem drawGraph_grid_symmetric (width height S : ℝ) (s : Sketch) (b : Bounds)
    (hb : b = bounds width height) (hS : 0 < S) :
    ∃ fuel0 : ℕ, ∀ fuel : ℕ, fuel0 ≤ fuel → ∃ g1 g2 g3 g4 rest : List (Line ℝ),
      gridRight fuel b S = some g1 ∧ gridLeft fuel b S = some g2 ∧
      gridDown fuel b S = some g3 ∧ gridUp fuel b S = some g4 ∧
      drawGraph fuel width height S s = some (g1 ++ g2 ++ g3 ++ g4 ++ rest) ∧
      g1.length = g2.length ∧ g3.length = g4.length ∧
      (∀ x : ℝ, (⟨x, b.top, x, b.bottom⟩ : Line ℝ) ∈ g1
        ↔ (⟨2 * b.ox - x, b.top, 2 * b.ox - x, b.bottom⟩ : Line ℝ) ∈ g2) ∧
      (∀ x : ℝ, (⟨x, b.top, x, b.bottom⟩ : Line ℝ) ∈ g2
        ↔ (⟨2 * b.ox - x, b.top, 2 * b.ox - x, b.bottom⟩ : Line ℝ) ∈ g1) ∧
      (∀ x : ℝ, (⟨x, b.top, x, b.bottom⟩ : Line ℝ) ∈ g1 ++ g2
        ↔ (⟨2 * b.ox - x, b.top, 2 * b.ox - x, b.bottom⟩ : Line ℝ) ∈ g1 ++ g2) ∧
      (∀ y : ℝ, (⟨b.left, y, b.right, y⟩ : Line ℝ) ∈ g3
        ↔ (⟨b.left, 2 * b.oy - y, b.right, 2 * b.oy - y⟩ : Line ℝ) ∈ g4) ∧
      (∀ y : ℝ, (⟨b.left, y, b.right, y⟩ : Line ℝ) ∈ g4
        ↔ (⟨b.left, 2 * b.oy - y, b.right, 2 * b.oy - y⟩ : Line ℝ) ∈ g3) ∧
      (∀ y : ℝ, (⟨b.left, y, b.right, y⟩ : Line ℝ) ∈ g3 ++ g4
        ↔ (⟨b.left, 2 * b.oy - y, b.right, 2 * b.oy - y⟩ : Line ℝ) ∈ g3 ++ g4) ∧
      (b.left ≤ b.right →
        g1.head? = some ⟨b.ox, b.top, b.ox, b.bottom⟩ ∧
        g2.head? = some ⟨b.ox, b.top, b.ox, b.bottom⟩) ∧
      (b.top ≤ b.bottom →
        g3.head? = some ⟨b.left, b.oy, b.right, b.oy⟩ ∧
        g4.head? = some ⟨b.left, b.oy, b.right, b.oy⟩) := by
  have hx : b.right - b.ox = b.ox - b.left := by
    subst hb; simp only [bounds]; ring
  have hy : b.bottom - b.oy = b.oy - b.top := by
    subst hb; simp only [bounds]; ring
  have hxw : b.left ≤ b.right → 0 ≤ b.ox - b.left := by
    intro h; subst hb; simp only [bounds] at h ⊢; linarith
  have hyh : b.top ≤ b.bottom → 0 ≤ b.oy - b.top := by
    intro h; subst hb; simp only [bounds] at h ⊢; linarith
  have hpos : ∀ len : ℝ, 0 ≤ len → 0 < ⌊len / S + 1⌋₊ := fun len hlen =>
    (lt_floor_steps hS 0).2 (by simpa using hlen)
  obtain ⟨fuel0, h⟩ := drawGraph_grid_eq width height S s b hb hS
  refine ⟨fuel0, fun fuel hfuel => ?_⟩
  obtain ⟨rest, h1, h2, h3, h4, hrun⟩ := h fuel hfuel
  rw [hx] at h1 hrun
  rw [hy] at h3 hrun
  have hv1 : ∀ x : ℝ, (⟨x, b.top, x, b.bottom⟩ : Line ℝ)
        ∈ (List.range ⌊(b.ox - b.left) / S + 1⌋₊).map
          (fun k : ℕ => (⟨b.ox + k * S, b.top, b.ox + k * S, b.bottom⟩ : Line ℝ))
      ↔ (⟨2 * b.ox - x, b.top, 2 * b.ox - x, b.bottom⟩ : Line ℝ)
        ∈ (List.range ⌊(b.ox - b.left) / S + 1⌋₊).map
          (fun k : ℕ => (⟨b.ox - k * S, b.top, b.ox - k * S, b.bottom⟩ : Line ℝ)) := by
    intro x
    rw [mem_map_range_vertical (fun k : ℕ => b.ox + k * S),
      mem_map_range_vertical (fun k : ℕ => b.ox - k * S)]
    constructor
    · rintro ⟨k, hk, h⟩
      exact ⟨k, hk, by linarith⟩
    · rintro ⟨k, hk, h⟩
      exact ⟨k, hk, by linarith⟩
  have hv2 : ∀ x : ℝ, (⟨x, b.top, x, b.bottom⟩ : Line ℝ)
        ∈ (List.range ⌊(b.ox - b.left) / S + 1⌋₊).map
          (fun k : ℕ => (⟨b.ox - k * S, b.top, b.ox - k * S, b.bottom⟩ : Line ℝ))
      ↔ (⟨2 * b.ox - x, b.top, 2 * b.ox - x, b.bottom⟩ : Line ℝ)
        ∈ (List.range ⌊(b.ox - b.left) / S + 1⌋₊).map
          (fun k : ℕ => (⟨b.ox + k * S, b.top, b.ox + k * S, b.bottom⟩ : Line ℝ)) := by
    intro x
    rw [mem_map_range_vertical (fun k : ℕ => b.ox + k * S),
      mem_map_range_vertical (fun k : ℕ => b.ox - k * S)]
    constructor
    · rintro ⟨k, hk, h⟩
      exact ⟨k, hk, by linarith⟩
    · rintro ⟨k, hk, h⟩
      exact ⟨k, hk, by linarith⟩
  have hh1 : ∀ y : ℝ, (⟨b.left, y, b.right, y⟩ : Line ℝ)
        ∈ (List.range ⌊(b.oy - b.top) / S + 1⌋₊).map
          (fun k : ℕ => (⟨b.left, b.oy + k * S, b.right, b.oy + k * S⟩ : Line ℝ))
      ↔ (⟨b.left, 2 * b.oy - y, b.right, 2 * b.oy - y⟩ : Line ℝ)
        ∈ (List.range ⌊(b.oy - b.top) / S + 1⌋₊).map
          (fun k : ℕ => (⟨b.left, b.oy - k * S, b.right, b.oy - k * S⟩ : Line ℝ)) := by
    intro y
    rw [mem_map_range_horizontal (fun k : ℕ => b.oy + k * S),
      mem_map_range_horizontal (fun k : ℕ => b.oy - k * S)]
    constructor
    · rintro ⟨k, hk, h⟩
      exact ⟨k, hk, by linarith⟩
    · rintro ⟨k, hk, h⟩
      exact ⟨k, hk, by linarith⟩
  have hh2 : ∀ y : ℝ, (⟨b.left, y, b.right, y⟩ : Line ℝ)
        ∈ (List.range ⌊(b.oy - b.top) / S + 1⌋₊).map
          (fun k : ℕ => (⟨b.left, b.oy - k * S, b.right, b.oy - k * S⟩ : Line ℝ))
      ↔ (⟨b.left, 2 * b.oy - y, b.right, 2 * b.oy - y⟩ : Line ℝ)
        ∈ (List.range ⌊(b.oy - b.top) / S + 1⌋₊).map
          (fun k : ℕ => (⟨b.left, b.oy + k * S, b.right, b.oy + k * S⟩ : Line ℝ)) := by
    intro y
    rw [mem_map_range_horizontal (fun k : ℕ => b.oy + k * S),
      mem_map_range_horizontal (fun k : ℕ => b.oy - k * S)]
    constructor
    · rintro ⟨k, hk, h⟩
      exact ⟨k, hk, by linarith⟩
    · rintro ⟨k, hk, h⟩
      exact ⟨k, hk, by linarith⟩
  refine ⟨_, _, _, _, rest, h1, h2, h3, h4, hrun, by simp, by simp, hv1, hv2, ?_, hh1, hh2, ?_,
    ?_, ?_⟩
  · intro x
    rw [List.mem_append, List.mem_append, hv1 x, hv2 x, or_comm]
  · intro y
    rw [List.mem_append, List.mem_append, hh1 y, hh2 y, or_comm]
  · intro hw
    have hn := hpos _ (hxw hw)
    constructor
    · rw [head_map_range _ hn]; simp
    · rw [head_map_range _ hn]; simp
  · intro hw
    have hn := hpos _ (hyh hw)
    constructor
    · rw [head_map_range _ hn]; simp
    · rw [head_map_range _ hn]; simp

/-- Witness of C20: the canvas 200 × 400 at scale 50, where `left = 20 ≤ right = 180` and
`top = 190 ≤ bottom = 380`. -/
theorem drawGraph_grid_symmetric_witness :
    bounds 200 400 = bounds 200 400 ∧ (0 : ℝ) < 50 ∧
    (bounds 200 400).left ≤ (bounds 200 400).right ∧
    (bounds 200 400).top ≤ (bounds 200 400).bottom ∧
    ∃ fuel0 : ℕ, ∀ fuel : ℕ, fuel0 ≤ fuel → ∃ g1 g2 g3 g4 : List (Line ℝ),
      gridRight fuel (bounds 200 400) 50 = some g1 ∧
      gridLeft fuel (bounds 200 400) 50 = some g2 ∧
      gridDown fuel (bounds 200 400) 50 = some g3 ∧
      gridUp fuel (bounds 200 400) 50 = some g4 ∧
      g1.length = g2.length ∧ g3.length = g4.length ∧
      g1.head? = some ⟨(bounds 200 400).ox, (bounds 200 400).top,
        (bounds 200 400).ox, (bounds 200 400).bottom⟩ ∧
      g2.head? = some ⟨(bounds 200 400).ox, (bounds 200 400).top,
        (bounds 200 400).ox, (bounds 200 400).bottom⟩ ∧
      g3.head? = some ⟨(bounds 200 400).left, (bounds 200 400).oy,
        (bounds 200 400).right, (bounds 200 400).oy⟩ ∧
      g4.head? = some ⟨(bounds 200 400).left, (bounds 200 400).oy,
        (bounds 200 400).right, (bounds 200 400).oy⟩ := by
  have hw : (bounds 200 400).left ≤ (bounds 200 400).right := by norm_num [bounds]
  have hh : (bounds 200 400).top ≤ (bounds 200 400).bottom := by norm_num [bounds]
  obtain ⟨fuel0, h⟩ :=
    drawGraph_grid_symmetric 200 400 50 Sketch.initial (bounds 200 400) rfl (by norm_num)
  refine ⟨rfl, by norm_num, hw, hh, fuel0, fun fuel hfuel => ?_⟩
  obtain ⟨g1, g2, g3, g4, rest, h1, h2, h3, h4, -, hl1, hl2, -, -, -, -, -, -, hx, hy⟩ :=
    h fuel hfuel
  exact ⟨g1, g2, g3, g4, h1, h2, h3, h4, hl1, hl2, (hx hw).1, (hx hw).2, (hy hh).1, (hy hh).2⟩

end Vectors
